import Mathlib

/-!
Calibu: rectification lookup table and range bound finders

A shallow embedding of `include/calibu/cam/rectify_crtp.h`.

Conventions of the embedding.

* `int` is 32 bits wide, `unsigned int` is 32 bits wide and `size_t` is 64 bits wide (LP64).
  Machine integers are mathematical integers together with explicit reductions
  modulo `2^32` or `2^64` at the places where C++ converts or wraps.
* Signed overflow, division by zero and an out-of-bounds `operator[]` are undefined
  behaviour; they are reported as `Fault.undefinedBehaviour` instead of being given a value.
* `assert` is taken to be active (no `NDEBUG`).
* `float` and `double` values are rational numbers: arithmetic is exact, and neither
  rounding nor NaN nor infinite coordinates are modelled.
* A table is a value (`LookupTable`); where the identity of objects matters, an object
  (`TableObject`) owns the buffer of its vector in a `Store`, and a write through one object
  reaches only the buffer that object owns.
-/

namespace calibu

/-! ## Machine integer constants -/

/-- Largest value of a C++ `int`. -/
def INT_MAX : Int := 2 ^ 31 - 1

/-- Smallest value of a C++ `int`. -/
def INT_MIN : Int := -(2 ^ 31)

/-- Number of values of an `unsigned int`. -/
def UINT_MOD : Nat := 2 ^ 32

/-- Number of values of a `size_t`. -/
def SIZE_MOD : Nat := 2 ^ 64

/-- Conversion of an `int` value to `unsigned int`. -/
def toUInt (i : Int) : Nat := (i % (UINT_MOD : Int)).toNat

/-- Conversion of an `int` value to `size_t`. -/
def toSizeT (i : Int) : Nat := (i % (SIZE_MOD : Int)).toNat

/-- Ways in which a call can go wrong. -/
inductive Fault where
  /-- An `assert` fired. -/
  | assertion
  /-- A `std::vector` was asked to grow beyond `max_size()`. -/
  | lengthError
  /-- The C++ standard gives the execution no meaning. -/
  | undefinedBehaviour
deriving DecidableEq, Repr

/-! ## BilinearLutPoint -/

/-- One resampling descriptor: two source indices and four interpolation weights. -/
structure BilinearLutPoint where
  /-- Index to pixel in src image. -/
  idx0 : Int
  /-- Index to pixel + one row in src image. -/
  idx1 : Int
  /-- Top left weight for bilinear interpolation. -/
  w00 : ℚ
  /-- Top right weight for bilinear interpolation. -/
  w01 : ℚ
  /-- Bottom left weight. -/
  w10 : ℚ
  /-- Bottom right weight. -/
  w11 : ℚ
deriving DecidableEq, Repr

/-- The value-initialised descriptor that `std::vector::resize` appends: the struct has no
constructor, so every member is zero. -/
def BilinearLutPoint.zeroed : BilinearLutPoint := ⟨0, 0, 0, 0, 0, 0⟩

/-! ## LookupTable -/

/-- The lookup table: the descriptor vector and the stored width. -/
structure LookupTable where
  /-- The descriptors, row-major. -/
  m_vLutPixels : List BilinearLutPoint
  /-- The stored width, so that the height is `m_vLutPixels.size()/m_nWidth`. -/
  m_nWidth : Int
deriving DecidableEq, Repr

/-- Upper bound `max_size()` of a `std::vector<BilinearLutPoint>`: the largest byte count a
`ptrdiff_t` can express divided by the 24 bytes of a descriptor. -/
def vectorMaxSize : Nat := (2 ^ 63 - 1) / 24

/-- The default constructor `LookupTable()`: no descriptors; `m_nWidth` is left
uninitialised, so its value `garbage` is arbitrary. -/
def LookupTable.empty (garbage : Int) : LookupTable :=
  { m_vLutPixels := [], m_nWidth := garbage }

/-- The constructor `LookupTable(int nWidth, int nHeight)`.
The product is formed in `int` (overflow is undefined), converted to `size_t` for `resize`,
which throws when the count exceeds `max_size()`. -/
def LookupTable.build (nWidth nHeight : Int) : Except Fault LookupTable :=
  let prod := nWidth * nHeight
  if prod < INT_MIN ∨ INT_MAX < prod then
    .error .undefinedBehaviour
  else
    let n := toSizeT prod
    if vectorMaxSize < n then
      .error .lengthError
    else
      .ok { m_vLutPixels := List.replicate n BilinearLutPoint.zeroed, m_nWidth := nWidth }

/-- The copy constructor `LookupTable(const LookupTable& rhs)`: a resize to the size of
`rhs`, the width, then the vector assignment, which replaces the resized contents. -/
def LookupTable.copy (rhs : LookupTable) : LookupTable :=
  let resized : List BilinearLutPoint :=
    List.replicate rhs.m_vLutPixels.length BilinearLutPoint.zeroed
  let width := rhs.m_nWidth
  let assigned : List BilinearLutPoint := (fun _ => rhs.m_vLutPixels) resized
  { m_vLutPixels := assigned, m_nWidth := width }

/-- The member `Width()`: the stored `int` returned as `unsigned int`. -/
def LookupTable.Width (t : LookupTable) : Nat := toUInt t.m_nWidth

/-- The member `Height()`: `size() / m_nWidth` computed in `size_t` and returned as
`unsigned int`. A zero divisor is undefined behaviour. -/
def LookupTable.Height (t : LookupTable) : Except Fault Nat :=
  let d := toSizeT t.m_nWidth
  if d = 0 then .error .undefinedBehaviour
  else .ok ((t.m_vLutPixels.length / d) % UINT_MOD)

/-- How a call that mutates a table ends. -/
inductive Outcome where
  /-- The call returned; `t` is the table afterwards. -/
  | returned (t : LookupTable)
  /-- An assertion stopped the call; `t` is the table at that moment. -/
  | assertFailed (t : LookupTable)
  /-- The call wrote outside the vector. -/
  | undefinedBehaviour
deriving DecidableEq, Repr

/-- The position `nRow*m_nWidth + nCol` as `SetPoint` computes it, in `unsigned int`. -/
def LookupTable.index (t : LookupTable) (nRow nCol : Nat) : Nat :=
  (nRow * toUInt t.m_nWidth + nCol) % UINT_MOD

/-- The member `SetPoint(nRow, nCol, p)`: the assertion on a non-empty vector, then the
unchecked write at `nRow*m_nWidth + nCol`. -/
def LookupTable.SetPoint (t : LookupTable) (nRow nCol : Nat) (p : BilinearLutPoint) :
    Outcome :=
  if ¬ (0 < t.m_vLutPixels.length) then
    .assertFailed t
  else
    let i := t.index nRow nCol
    if i < t.m_vLutPixels.length then
      .returned { t with m_vLutPixels := t.m_vLutPixels.set i p }
    else
      .undefinedBehaviour

/-- The descriptor stored at a position of the point sequence, if the position exists. -/
def LookupTable.point? (t : LookupTable) (i : Nat) : Option BilinearLutPoint :=
  t.m_vLutPixels[i]?

/-- The tables a program can arrive at from `LookupTable(W, H)` by in-range `SetPoint` calls
and copy constructions. -/
inductive Reachable (W H : Int) : LookupTable → Prop where
  /-- The table the constructor returns. -/
  | built {t : LookupTable} : LookupTable.build W H = .ok t → Reachable W H t
  /-- The table after a `SetPoint` call on a cell of the `W×H` grid that returned. -/
  | setPoint {t t' : LookupTable} (row col : Nat) (p : BilinearLutPoint) :
      Reachable W H t → (row : Int) < H → (col : Int) < W →
      t.SetPoint row col p = .returned t' → Reachable W H t'
  /-- The copy of a reachable table. -/
  | copied {t : LookupTable} : Reachable W H t → Reachable W H (LookupTable.copy t)

/-! ## Table objects and the storage of their vectors -/

/-- The free store of `std::vector` element buffers: the buffer at address `a` is entry `a`
of the list. A `std::vector` object owns one buffer and keeps its elements there. -/
structure Store where
  /-- The element buffers, by address. -/
  buffers : List (List BilinearLutPoint)
deriving DecidableEq, Repr

/-- The elements of the buffer at an address, if a buffer lives there. -/
def Store.read (s : Store) (address : Nat) : Option (List BilinearLutPoint) :=
  s.buffers[address]?

/-- The store after the elements of the buffer at an address are replaced. -/
def Store.write (s : Store) (address : Nat) (elements : List BilinearLutPoint) : Store :=
  { buffers := s.buffers.set address elements }

/-- Allocation of a buffer with the given elements: the store afterwards and the address
of the new buffer, at which no buffer lived before. -/
def Store.allocate (s : Store) (elements : List BilinearLutPoint) : Store × Nat :=
  ({ buffers := s.buffers ++ [elements] }, s.buffers.length)

/-- A `LookupTable` object in memory: the address of the buffer that its member
`m_vLutPixels` owns, and its member `m_nWidth`. -/
structure TableObject where
  /-- The address of the buffer of `m_vLutPixels`. -/
  pixels : Nat
  /-- The member `m_nWidth`. -/
  m_nWidth : Int
deriving DecidableEq, Repr

/-- The table an object holds in a store: the elements of its buffer and its width. -/
def TableObject.value (o : TableObject) (s : Store) : Option LookupTable :=
  (s.read o.pixels).map (fun elements => { m_vLutPixels := elements, m_nWidth := o.m_nWidth })

/-- The copy constructor `LookupTable(const LookupTable& rhs)` on objects. The new object's
vector gets a buffer of its own when `resize( rhs.m_vLutPixels.size() )` allocates it; the
width is copied; the vector assignment `m_vLutPixels = rhs.m_vLutPixels` then copies the
elements of `rhs` into the new object's buffer. The result is the store afterwards and the
new object; there is none when `rhs` has no buffer in the store. -/
def TableObject.copyConstruct (s : Store) (rhs : TableObject) : Option (Store × TableObject) :=
  match s.read rhs.pixels with
  | none => none
  | some rhsElements =>
    let allocated := s.allocate (List.replicate rhsElements.length BilinearLutPoint.zeroed)
    let width := rhs.m_nWidth
    match allocated.1.read rhs.pixels with
    | none => none
    | some elements =>
      some (allocated.1.write allocated.2 elements, { pixels := allocated.2, m_nWidth := width })

/-- The member `SetPoint(nRow, nCol, p)` called on an object: `LookupTable.SetPoint` on the
table the object holds, its write going to the object's own buffer. The result is the store
after a call that returned; there is none when the call did not return. -/
def TableObject.SetPoint (s : Store) (o : TableObject) (nRow nCol : Nat)
    (p : BilinearLutPoint) : Option Store :=
  match o.value s with
  | none => none
  | some t =>
    match t.SetPoint nRow nCol p with
    | .returned t' => some (s.write o.pixels t'.m_vLutPixels)
    | _ => none

/-! ## Range -/

/-- Modelled from the spec: `calibu/utils/Range.h` is not among the sources. The interval
`[lo, hi]` of §3, whose lower end may be `-inf` and whose upper end may be `+inf`. -/
structure Range where
  /-- The lower end; `⊥` is `-inf`. -/
  lo : WithBot ℚ
  /-- The upper end; `⊤` is `+inf`. -/
  hi : WithTop ℚ
deriving DecidableEq

/-- Modelled from the spec: `Range::Open()` of the missing `Range.h`, the interval that
"starts fully open (`lo = -inf, hi = +inf`)". -/
def Range.Open : Range := { lo := ⊥, hi := ⊤ }

/-- Modelled from the spec: `Range::ExcludeLessThan(x)` of the missing `Range.h`, which
"raises `lo` to `x` if `x > lo`". -/
def Range.ExcludeLessThan (r : Range) (x : ℚ) : Range :=
  if (x : WithBot ℚ) > r.lo then { r with lo := (x : WithBot ℚ) } else r

/-- Modelled from the spec: `Range::ExcludeGreaterThan(x)` of the missing `Range.h`, which
"lowers `hi` to `x` if `x < hi`". -/
def Range.ExcludeGreaterThan (r : Range) (x : ℚ) : Range :=
  if (x : WithTop ℚ) < r.hi then { r with hi := (x : WithTop ℚ) } else r

/-! ## Vectors, matrices and the camera capability -/

/-- An `Eigen::Vector2d`; component `[0]` is `x` and component `[1]` is `y`. -/
structure Vector2d where
  /-- Component `[0]`, the column coordinate. -/
  x : ℚ
  /-- Component `[1]`, the row coordinate. -/
  y : ℚ
deriving DecidableEq

/-- An `Eigen::Vector3d`. -/
structure Vector3d where
  /-- Component `[0]`. -/
  x : ℚ
  /-- Component `[1]`. -/
  y : ℚ
  /-- Component `[2]`. -/
  z : ℚ
deriving DecidableEq

/-- An `Eigen::Matrix3d`, entry `mij` in row `i` and column `j`. -/
structure Matrix3d where
  m00 : ℚ
  m01 : ℚ
  m02 : ℚ
  m10 : ℚ
  m11 : ℚ
  m12 : ℚ
  m20 : ℚ
  m21 : ℚ
  m22 : ℚ
deriving DecidableEq

/-- The product `R * v` of a matrix and a vector. -/
def Matrix3d.mulVec (R : Matrix3d) (v : Vector3d) : Vector3d :=
  { x := R.m00 * v.x + R.m01 * v.y + R.m02 * v.z,
    y := R.m10 * v.x + R.m11 * v.y + R.m12 * v.z,
    z := R.m20 * v.x + R.m21 * v.y + R.m22 * v.z }

/-- The identity rotation. -/
def Matrix3d.Identity : Matrix3d :=
  { m00 := 1, m01 := 0, m02 := 0,
    m10 := 0, m11 := 1, m12 := 0,
    m20 := 0, m21 := 0, m22 := 1 }

/-- The camera capability `CameraInterface<double>` as the bound finders use it. Its
declaration (`camera_crtp.h`) is not among the sources, so the four members the code calls
are the fields of this record and every camera is a value of it. -/
structure CameraInterface where
  /-- The member `Width()`. -/
  Width : Nat
  /-- The member `Height()`. -/
  Height : Nat
  /-- The member `Project(ray)`. -/
  Project : Vector3d → Vector2d
  /-- The member `Unproject(pixel)`. -/
  Unproject : Vector2d → Vector3d

/-- The coordinate `n - 1` that `cam->Width()-1` and `cam->Height()-1` evaluate to. For
`n ≥ 1` it is `n - 1`. For `n = 0` it depends on the return type of `Width()` and
`Height()`, which the missing `camera_crtp.h` declares: `wrap` is the value of `0 - 1` in
that type (`-1` when it is signed, `2^32 - 1` or `2^64 - 1` when it is unsigned). -/
def lastIndex (wrap : ℚ) (n : Nat) : ℚ := if n = 0 then wrap else (n : ℚ) - 1

/-- One pass through the loop body of `MinMaxRotatedCol`, for the row `row`. -/
def MinMaxRotatedCol.body (wrap : ℚ) (cam : CameraInterface) (Rnl_l : Matrix3d)
    (range : Range) (row : Nat) : Range :=
  let lray := Rnl_l.mulVec (cam.Unproject ⟨0, (row : ℚ)⟩)
  let rray := Rnl_l.mulVec (cam.Unproject ⟨lastIndex wrap cam.Width, (row : ℚ)⟩)
  let ln := cam.Project lray
  let rn := cam.Project rray
  let range := range.ExcludeLessThan ln.x
  let range := range.ExcludeGreaterThan rn.x
  range

/-- The function `MinMaxRotatedCol(cam, Rnl_l)`: starting from the open range, the loop body
runs for `row = 0, ..., cam->Height() - 1`. -/
def MinMaxRotatedCol (wrap : ℚ) (cam : CameraInterface) (Rnl_l : Matrix3d) : Range :=
  (List.range cam.Height).foldl (MinMaxRotatedCol.body wrap cam Rnl_l) Range.Open

/-- One pass through the loop body of `MinMaxRotatedRow`, for the column `col`. -/
def MinMaxRotatedRow.body (wrap : ℚ) (cam : CameraInterface) (Rnl_l : Matrix3d)
    (range : Range) (col : Nat) : Range :=
  let tn := cam.Project (Rnl_l.mulVec (cam.Unproject ⟨(col : ℚ), 0⟩))
  let bn := cam.Project (Rnl_l.mulVec (cam.Unproject ⟨(col : ℚ), lastIndex wrap cam.Height⟩))
  let range := range.ExcludeLessThan tn.y
  let range := range.ExcludeGreaterThan bn.y
  range

/-- The function `MinMaxRotatedRow(cam, Rnl_l)`: starting from the open range, the loop body
runs for `col = 0, ..., cam->Width() - 1`. -/
def MinMaxRotatedRow (wrap : ℚ) (cam : CameraInterface) (Rnl_l : Matrix3d) : Range :=
  (List.range cam.Width).foldl (MinMaxRotatedRow.body wrap cam Rnl_l) Range.Open

/-- The left projection `l(row)`: the x-coordinate of `Project(R * Unproject((0, row)))`. -/
def leftProjection (cam : CameraInterface) (R : Matrix3d) (row : Nat) : ℚ :=
  (cam.Project (R.mulVec (cam.Unproject ⟨0, (row : ℚ)⟩))).x

/-- The right projection `r(row)`: the x-coordinate of
`Project(R * Unproject((W-1, row)))`. -/
def rightProjection (wrap : ℚ) (cam : CameraInterface) (R : Matrix3d) (row : Nat) : ℚ :=
  (cam.Project (R.mulVec (cam.Unproject ⟨lastIndex wrap cam.Width, (row : ℚ)⟩))).x

/-- The top projection `t(col)`: the y-coordinate of `Project(R * Unproject((col, 0)))`. -/
def topProjection (cam : CameraInterface) (R : Matrix3d) (col : Nat) : ℚ :=
  (cam.Project (R.mulVec (cam.Unproject ⟨(col : ℚ), 0⟩))).y

/-- The bottom projection `b(col)`: the y-coordinate of
`Project(R * Unproject((col, H-1)))`. -/
def bottomProjection (wrap : ℚ) (cam : CameraInterface) (R : Matrix3d) (col : Nat) : ℚ :=
  (cam.Project (R.mulVec (cam.Unproject ⟨(col : ℚ), lastIndex wrap cam.Height⟩))).y

/-- A linear (undistorted) camera: projecting the ray of a pixel gives the pixel back, for
every pixel of the image grid. -/
def IsLinear (cam : CameraInterface) : Prop :=
  ∀ col row : Nat, col < cam.Width → row < cam.Height →
    cam.Project (cam.Unproject ⟨(col : ℚ), (row : ℚ)⟩) = ⟨(col : ℚ), (row : ℚ)⟩

/-- An example camera: the ideal pinhole with unit focal length and principal point at the
origin, whose pixel `(u, v)` is seen along the ray `(u, v, 1)`. -/
def pinholeCamera (width height : Nat) : CameraInterface :=
  { Width := width,
    Height := height,
    Project := fun ray => ⟨ray.x / ray.z, ray.y / ray.z⟩,
    Unproject := fun pixel => ⟨pixel.x, pixel.y, 1⟩ }

/-! ## Bilinear weights -/

/-- The conversion `(int) x`, which drops the fractional part (rounds toward zero). -/
def truncToInt (x : ℚ) : Int := if 0 ≤ x then ⌊x⌋ else ⌈x⌉

/-- The descriptor of the interpolation documented above `BilinearLutPoint`: the corner
`xt = (int) x`, `yt = (int) y`, the offsets `ax = x - xt`, `ay = y - yt`, the pointer
`image + width*yt + xt` and the four coefficients of the returned sum. -/
def documentedLutPoint (width : Int) (x y : ℚ) : BilinearLutPoint :=
  let xt := truncToInt x
  let yt := truncToInt y
  let ax := x - xt
  let ay := y - yt
  let idx0 := width * yt + xt
  { idx0 := idx0, idx1 := idx0 + width,
    w00 := (1 - ax) * (1 - ay),
    w01 := ax * (1 - ay),
    w10 := (1 - ax) * ay,
    w11 := ax * ay }

/-- Modelled from the spec: the body of `CreateLookupTable` is not among the sources (the
header only declares it). Steps 4 to 6 of §4.2 for a source coordinate `(x, y)`:
`xt = floor(x)`, `yt = floor(y)`, `ax = x - xt`, `ay = y - yt`,
`idx0 = yt*sourceWidth + xt`, `idx1 = idx0 + sourceWidth` and the four weights of §3.
The clamping of step 7 concerns the indices only and is left to the implementer; it is not
modelled. -/
def specLutPoint (sourceWidth : Int) (x y : ℚ) : BilinearLutPoint :=
  let xt := ⌊x⌋
  let yt := ⌊y⌋
  let ax := x - xt
  let ay := y - yt
  let idx0 := yt * sourceWidth + xt
  { idx0 := idx0, idx1 := idx0 + sourceWidth,
    w00 := (1 - ax) * (1 - ay),
    w01 := ax * (1 - ay),
    w10 := (1 - ax) * ay,
    w11 := ax * ay }

/-! ## Rectify -/

/-- One pixel of a single-byte-per-pixel image buffer. -/
abbrev Byte := Fin 256

/-- Modelled from the spec: the body of `Rectify` is not among the sources (the header only
declares it). The source sample at flat index `idx` of §4.3: the value of the byte the
buffer stores there. The spec gives a sample that lies outside the buffer no value, so that
value is the parameter `outside`: `outside idx` is whatever byte is found at `idx`. -/
def readSample (outside : Int → Byte) (pInputImageData : List Byte) (idx : Int) : ℚ :=
  if 0 ≤ idx then
    match pInputImageData[idx.toNat]? with
    | some b => (b.val : ℚ)
    | none => ((outside idx).val : ℚ)
  else
    ((outside idx).val : ℚ)

/-- Modelled from the spec: the body of `Rectify` is not among the sources. The step
"round/truncate to an integer pixel value" of §4.3 for a single-byte pixel: the intensity
is truncated, and a value that no byte can hold is given no meaning. -/
def toPixel (intensity : ℚ) : Except Fault Byte :=
  let n := truncToInt intensity
  if h : 0 ≤ n ∧ n < 256 then .ok ⟨n.toNat, by omega⟩ else .error .undefinedBehaviour

/-- Modelled from the spec: the body of `Rectify` is not among the sources. The
interpolated intensity of §4.3: "the weighted sum of the four source samples at `idx0`,
`idx0+1`, `idx1`, `idx1+1` using `w00, w01, w10, w11`". -/
def weightedSum (outside : Int → Byte) (pInputImageData : List Byte) (p : BilinearLutPoint) :
    ℚ :=
  p.w00 * readSample outside pInputImageData p.idx0
    + p.w01 * readSample outside pInputImageData (p.idx0 + 1)
    + p.w10 * readSample outside pInputImageData p.idx1
    + p.w11 * readSample outside pInputImageData (p.idx1 + 1)

/-- Modelled from the spec: the body of `Rectify` is not among the sources. One output pixel
of §4.3: the weighted sum of the four samples, truncated to an integer pixel value. -/
def rectifyPixel (outside : Int → Byte) (pInputImageData : List Byte) (p : BilinearLutPoint) :
    Except Fault Byte :=
  toPixel (weightedSum outside pInputImageData p)

/-- Modelled from the spec: the body of `Rectify` is not among the sources (the header only
declares `Rectify(lut, pInputImageData, pOutputRectImageData, w, h)`). §4.3: the table size
must match `w × h` (a mismatch fails fast, §7); then for each output pixel index `i` in
`[0, w*h)` the descriptor `lut[i]` is read and its pixel is written to `outputImage[i]`.
The result is the output buffer of `w*h` bytes. -/
def Rectify (outside : Int → Byte) (lut : LookupTable) (pInputImageData : List Byte)
    (w h : Int) : Except Fault (List Byte) :=
  if (lut.m_vLutPixels.length : Int) ≠ w * h then
    .error .assertion
  else
    (List.range (w * h).toNat).mapM (fun i =>
      match lut.m_vLutPixels[i]? with
      | some p => rectifyPixel outside pInputImageData p
      | none => .error .undefinedBehaviour)

/-- The descriptor of output cell `(col, row)` of the identity-mapping table of width `w`:
`idx0 = row*w + col`, `idx1 = idx0 + w`, `w00 = 1` and `w01 = w10 = w11 = 0`. -/
def identityPoint (w col row : Nat) : BilinearLutPoint :=
  { idx0 := (row : Int) * (w : Int) + (col : Int),
    idx1 := (row : Int) * (w : Int) + (col : Int) + (w : Int),
    w00 := 1, w01 := 0, w10 := 0, w11 := 0 }

/-- The identity-mapping table of resolution `w×h`: position `i` of the row-major point
sequence holds the descriptor of the cell `(col, row) = (i mod w, i / w)`. -/
def identityTable (w h : Nat) : LookupTable :=
  { m_vLutPixels := (List.range (w * h)).map (fun i => identityPoint w (i % w) (i / w)),
    m_nWidth := (w : Int) }

/-! ## The bound finders with a record of the camera calls -/

/-- A call of `Project` or `Unproject` on the camera, with its argument. -/
inductive CameraCall where
  /-- A call `cam->Unproject(pixel)`. -/
  | unproject (pixel : Vector2d)
  /-- A call `cam->Project(ray)`. -/
  | project (ray : Vector3d)
deriving DecidableEq

/-- The loop body of `MinMaxRotatedCol` on a state that also records, in order, every call
the body makes on the camera. -/
def MinMaxRotatedCol.tracedBody (wrap : ℚ) (cam : CameraInterface) (Rnl_l : Matrix3d)
    (state : Range × List CameraCall) (row : Nat) : Range × List CameraCall :=
  let range := state.1
  let calls := state.2
  let lpixel : Vector2d := ⟨0, (row : ℚ)⟩
  let lray := Rnl_l.mulVec (cam.Unproject lpixel)
  let calls := calls ++ [CameraCall.unproject lpixel]
  let rpixel : Vector2d := ⟨lastIndex wrap cam.Width, (row : ℚ)⟩
  let rray := Rnl_l.mulVec (cam.Unproject rpixel)
  let calls := calls ++ [CameraCall.unproject rpixel]
  let ln := cam.Project lray
  let calls := calls ++ [CameraCall.project lray]
  let rn := cam.Project rray
  let calls := calls ++ [CameraCall.project rray]
  let range := range.ExcludeLessThan ln.x
  let range := range.ExcludeGreaterThan rn.x
  (range, calls)

/-- The function `MinMaxRotatedCol(cam, Rnl_l)` together with the record of its calls on
the camera. -/
def MinMaxRotatedCol.traced (wrap : ℚ) (cam : CameraInterface) (Rnl_l : Matrix3d) :
    Range × List CameraCall :=
  (List.range cam.Height).foldl (MinMaxRotatedCol.tracedBody wrap cam Rnl_l) (Range.Open, [])

/-- The loop body of `MinMaxRotatedRow` on a state that also records, in order, every call
the body makes on the camera. -/
def MinMaxRotatedRow.tracedBody (wrap : ℚ) (cam : CameraInterface) (Rnl_l : Matrix3d)
    (state : Range × List CameraCall) (col : Nat) : Range × List CameraCall :=
  let range := state.1
  let calls := state.2
  let tpixel : Vector2d := ⟨(col : ℚ), 0⟩
  let tray := Rnl_l.mulVec (cam.Unproject tpixel)
  let calls := calls ++ [CameraCall.unproject tpixel]
  let tn := cam.Project tray
  let calls := calls ++ [CameraCall.project tray]
  let bpixel : Vector2d := ⟨(col : ℚ), lastIndex wrap cam.Height⟩
  let bray := Rnl_l.mulVec (cam.Unproject bpixel)
  let calls := calls ++ [CameraCall.unproject bpixel]
  let bn := cam.Project bray
  let calls := calls ++ [CameraCall.project bray]
  let range := range.ExcludeLessThan tn.y
  let range := range.ExcludeGreaterThan bn.y
  (range, calls)

/-- The function `MinMaxRotatedRow(cam, Rnl_l)` together with the record of its calls on
the camera. -/
def MinMaxRotatedRow.traced (wrap : ℚ) (cam : CameraInterface) (Rnl_l : Matrix3d) :
    Range × List CameraCall :=
  (List.range cam.Width).foldl (MinMaxRotatedRow.tracedBody wrap cam Rnl_l) (Range.Open, [])

/-! ## Basic facts about the conversions and the constructor -/

theorem toUInt_of_int {i : Int} (h0 : 0 ≤ i) (h1 : i ≤ INT_MAX) : (toUInt i : Int) = i := by
  unfold toUInt UINT_MOD
  unfold INT_MAX at h1
  have : i % ((2 ^ 32 : Nat) : Int) = i := Int.emod_eq_of_lt h0 (by norm_num; omega)
  rw [this]
  exact Int.toNat_of_nonneg h0

theorem toSizeT_of_int {i : Int} (h0 : 0 ≤ i) (h1 : i ≤ INT_MAX) : (toSizeT i : Int) = i := by
  unfold toSizeT SIZE_MOD
  unfold INT_MAX at h1
  have : i % ((2 ^ 64 : Nat) : Int) = i := Int.emod_eq_of_lt h0 (by norm_num; omega)
  rw [this]
  exact Int.toNat_of_nonneg h0

/-- What the constructor returns on a product that an `int` can hold. -/
theorem build_ok {W H : Int} (h0 : 0 ≤ W * H) (h1 : W * H ≤ INT_MAX) :
    LookupTable.build W H =
      .ok { m_vLutPixels := List.replicate (W * H).toNat BilinearLutPoint.zeroed,
            m_nWidth := W } := by
  have hs : (toSizeT (W * H) : Int) = W * H := toSizeT_of_int h0 h1
  have hn : toSizeT (W * H) = (W * H).toNat := by omega
  have hmin : ¬ (W * H < INT_MIN ∨ INT_MAX < W * H) := by
    unfold INT_MIN; omega
  have hmax : ¬ (vectorMaxSize < toSizeT (W * H)) := by
    unfold vectorMaxSize
    unfold INT_MAX at h1
    omega
  rw [hn] at hmax
  unfold LookupTable.build
  simp only [hmin, hmax, if_false, hn]


/-- What a successful constructor call on natural dimensions returned. -/
theorem build_inv {W H : Nat} {t : LookupTable}
    (h : LookupTable.build (W : Int) (H : Int) = .ok t) :
    t = { m_vLutPixels := List.replicate (W * H) BilinearLutPoint.zeroed, m_nWidth := (W : Int) }
      ∧ W * H ≤ 2 ^ 31 - 1 := by
  have hprod : (W : Int) * (H : Int) = ((W * H : Nat) : Int) := by push_cast; rfl
  have h0 : (0 : Int) ≤ (W : Int) * (H : Int) := by rw [hprod]; exact Int.natCast_nonneg _
  by_cases hmax : (W : Int) * (H : Int) ≤ INT_MAX
  · rw [build_ok h0 hmax] at h
    have ht := Except.ok.inj h
    refine ⟨?_, ?_⟩
    · rw [← ht, hprod, Int.toNat_natCast]
    · rw [hprod] at hmax
      unfold INT_MAX at hmax
      omega
  · exfalso
    unfold LookupTable.build at h
    simp only [show ((W : Int) * (H : Int) < INT_MIN ∨ INT_MAX < (W : Int) * (H : Int)) from
      Or.inr (not_le.mp hmax), if_true] at h
    cases h

/-- The constructor succeeds on natural dimensions whose product an `int` can hold. -/
theorem build_nat {W H : Nat} (h : W * H ≤ 2 ^ 31 - 1) :
    LookupTable.build (W : Int) (H : Int) =
      .ok { m_vLutPixels := List.replicate (W * H) BilinearLutPoint.zeroed,
            m_nWidth := (W : Int) } := by
  have hprod : (W : Int) * (H : Int) = ((W * H : Nat) : Int) := by push_cast; rfl
  have h0 : (0 : Int) ≤ (W : Int) * (H : Int) := by rw [hprod]; exact Int.natCast_nonneg _
  have hmax : (W : Int) * (H : Int) ≤ INT_MAX := by
    rw [hprod]; unfold INT_MAX; omega
  rw [build_ok h0 hmax, hprod, Int.toNat_natCast]

/-- The unsigned value of a width that an `int` can hold. -/
theorem toUInt_nat {W : Nat} (h : W ≤ 2 ^ 31 - 1) : toUInt (W : Int) = W := by
  have := toUInt_of_int (i := (W : Int)) (Int.natCast_nonneg _) (by unfold INT_MAX; omega)
  omega

/-- The `size_t` value of a width that an `int` can hold. -/
theorem toSizeT_nat {W : Nat} (h : W ≤ 2 ^ 31 - 1) : toSizeT (W : Int) = W := by
  have := toSizeT_of_int (i := (W : Int)) (Int.natCast_nonneg _) (by unfold INT_MAX; omega)
  omega

/-- A returning `SetPoint` keeps the width and the number of descriptors. -/
theorem setPoint_returned {t t' : LookupTable} {row col : Nat} {p : BilinearLutPoint}
    (h : t.SetPoint row col p = .returned t') :
    t'.m_nWidth = t.m_nWidth ∧ t'.m_vLutPixels.length = t.m_vLutPixels.length
      ∧ t'.m_vLutPixels = t.m_vLutPixels.set (t.index row col) p
      ∧ t.index row col < t.m_vLutPixels.length := by
  unfold LookupTable.SetPoint at h
  dsimp only at h
  split_ifs at h with h1 h2
  have ht := Outcome.returned.inj h
  subst ht
  exact ⟨rfl, by simp, rfl, h2⟩

/-- The shape every reachable table has: the stored width is `W` and there are `W * H`
descriptors. -/
theorem reachable_shape {W H : Nat} {t : LookupTable}
    (h : Reachable (W : Int) (H : Int) t) :
    t.m_nWidth = (W : Int) ∧ t.m_vLutPixels.length = W * H ∧ W * H ≤ 2 ^ 31 - 1 := by
  induction h with
  | built hb =>
    obtain ⟨ht, hle⟩ := build_inv hb
    subst ht
    exact ⟨rfl, by simp, hle⟩
  | setPoint row col p _ _ _ hs ih =>
    obtain ⟨hw, hl, _, _⟩ := setPoint_returned hs
    exact ⟨hw.trans ih.1, hl.trans ih.2.1, ih.2.2⟩
  | copied _ ih =>
    exact ih

/-- The row-major position of a cell of the grid lies inside the grid. -/
theorem cell_lt {W H row col : Nat} (hr : row < H) (hc : col < W) :
    row * W + col < W * H := by
  have h1 : (row + 1) * W ≤ H * W := Nat.mul_le_mul_right W hr
  have h2 : (row + 1) * W = row * W + W := by ring
  have h3 : H * W = W * H := Nat.mul_comm H W
  omega

/-- On a table of shape `W×H` the position `SetPoint` computes for a cell of the grid is
the row-major position, without wrap-around. -/
theorem index_cell {W H row col : Nat} {t : LookupTable}
    (hw : t.m_nWidth = (W : Int)) (hle : W * H ≤ 2 ^ 31 - 1)
    (hr : row < H) (hc : col < W) :
    t.index row col = row * W + col := by
  have hlt := cell_lt hr hc
  have hW : W ≤ 2 ^ 31 - 1 := by
    have : W * 1 ≤ W * H := Nat.mul_le_mul_left W (by omega)
    omega
  unfold LookupTable.index UINT_MOD
  rw [hw, toUInt_nat hW]
  exact Nat.mod_eq_of_lt (by omega)

/-- `Width()` and `Height()` of a table of shape `W×H` with `W ≥ 1`. -/
theorem width_height_of_shape {W H : Nat} {t : LookupTable} (hW : 1 ≤ W)
    (hWi : W ≤ 2 ^ 31 - 1) (hw : t.m_nWidth = (W : Int))
    (hl : t.m_vLutPixels.length = W * H) (hle : W * H ≤ 2 ^ 31 - 1) :
    t.Width = W ∧ t.Height = .ok H := by
  constructor
  · unfold LookupTable.Width
    rw [hw, toUInt_nat hWi]
  · unfold LookupTable.Height
    simp only [hw, toSizeT_nat hWi, hl]
    have hd : ¬ (W = 0) := by omega
    have hdiv : W * H / W = H := Nat.mul_div_cancel_left H (by omega)
    have hH : H ≤ W * H := Nat.le_mul_of_pos_left H (by omega)
    have hmod : H % UINT_MOD = H := Nat.mod_eq_of_lt (by unfold UINT_MOD; omega)
    simp only [hd, if_false, hdiv, hmod]

/-- On a reachable table of a grid with at least one row, the width fits an `int`. -/
theorem width_le_of_row {W H row : Nat} (hle : W * H ≤ 2 ^ 31 - 1) (hr : row < H) :
    W ≤ 2 ^ 31 - 1 := by
  have : W * 1 ≤ W * H := Nat.mul_le_mul_left W (by omega)
  omega

/-- An in-range `SetPoint` on a reachable table returns, and the table afterwards is the
old one with the descriptor at the row-major position replaced. -/
theorem setPoint_reachable {W H row col : Nat} {t : LookupTable} (p : BilinearLutPoint)
    (h : Reachable (W : Int) (H : Int) t) (hr : row < H) (hc : col < W) :
    t.SetPoint row col p =
      .returned { t with m_vLutPixels := t.m_vLutPixels.set (row * W + col) p } := by
  obtain ⟨hw, hl, hle⟩ := reachable_shape h
  have hi := index_cell hw hle hr hc
  have hlt := cell_lt hr hc
  unfold LookupTable.SetPoint
  dsimp only
  rw [hi, hl]
  have hpos : 0 < W * H := by omega
  simp only [hpos, not_true_eq_false, if_false, hlt, if_true]

/-! ## The claims about the lookup table -/

/-- C1: for every width `W ≥ 1` and height `H ≥ 0` with `W` and `W*H` representable as an
`int`, `LookupTable(W, H)` returns a table that holds exactly `W*H` descriptors (each one
zero-initialised), whose `Width()` is `W` and whose `Height()` is `H`. -/
theorem C1_build_dimensions (W H : Nat) (hW : 1 ≤ W) (hWi : (W : Int) ≤ INT_MAX)
    (hWH : (W : Int) * (H : Int) ≤ INT_MAX) :
    ∃ t : LookupTable, LookupTable.build (W : Int) (H : Int) = .ok t
      ∧ t.m_vLutPixels.length = W * H
      ∧ t.Width = W
      ∧ t.Height = .ok H
      ∧ ∀ i, i < W * H → t.point? i = some BilinearLutPoint.zeroed := by
  have hWn : W ≤ 2 ^ 31 - 1 := by unfold INT_MAX at hWi; omega
  have hWHn : W * H ≤ 2 ^ 31 - 1 := by
    have hprod : (W : Int) * (H : Int) = ((W * H : Nat) : Int) := by push_cast; rfl
    rw [hprod] at hWH
    unfold INT_MAX at hWH
    omega
  refine ⟨_, build_nat hWHn, by simp, ?_, ?_, ?_⟩
  · exact (width_height_of_shape (H := H) hW hWn rfl (by simp) hWHn).1
  · exact (width_height_of_shape (H := H) hW hWn rfl (by simp) hWHn).2
  · intro i hi
    unfold LookupTable.point?
    simp [hi]

/-- Witness of C1 on the 2×3 table. -/
theorem C1_build_dimensions_witness :
    ∃ t : LookupTable, LookupTable.build ((2 : Nat) : Int) ((3 : Nat) : Int) = .ok t
      ∧ t.m_vLutPixels.length = 2 * 3
      ∧ t.Width = 2
      ∧ t.Height = .ok 3
      ∧ ∀ i, i < 2 * 3 → t.point? i = some BilinearLutPoint.zeroed :=
  C1_build_dimensions 2 3 (by decide) (by decide) (by decide)

/-- C2: on a table built `W×H` (and possibly written to since), for every `row < H`,
`col < W` and descriptor `p`, `SetPoint(row, col, p)` returns and afterwards the descriptor
at position `row*Width() + col` of the point sequence is `p`. The bounds `W ≥ 1` and
`H ≥ 1` of the claim follow from `col < W` and `row < H`. -/
theorem C2_setPoint_stores (W H : Nat) (t : LookupTable) (row col : Nat)
    (p : BilinearLutPoint)
    (h : Reachable (W : Int) (H : Int) t) (hr : row < H) (hc : col < W) :
    ∃ t' : LookupTable, t.SetPoint row col p = .returned t'
      ∧ t'.point? (row * t'.Width + col) = some p := by
  obtain ⟨hw, hl, hle⟩ := reachable_shape h
  have hWn := width_le_of_row hle hr
  refine ⟨_, setPoint_reachable p h hr hc, ?_⟩
  have hwidth : LookupTable.Width
      { t with m_vLutPixels := t.m_vLutPixels.set (row * W + col) p } = W := by
    unfold LookupTable.Width
    rw [hw, toUInt_nat hWn]
  rw [hwidth]
  unfold LookupTable.point?
  have hlt := cell_lt hr hc
  simp [hl, hlt]

/-- Witness of C2 on the freshly built 2×2 table, cell `(1, 1)`. -/
theorem C2_setPoint_stores_witness :
    ∃ t' : LookupTable,
      LookupTable.SetPoint
          { m_vLutPixels := List.replicate (2 * 2) BilinearLutPoint.zeroed, m_nWidth := 2 }
          1 1 ⟨5, 7, 1, 0, 0, 0⟩ = .returned t'
        ∧ t'.point? (1 * t'.Width + 1) = some ⟨5, 7, 1, 0, 0, 0⟩ :=
  C2_setPoint_stores 2 2 _ 1 1 ⟨5, 7, 1, 0, 0, 0⟩
    (Reachable.built (build_nat (by decide))) (by decide) (by decide)

/-- C3: `SetPoint` on a table that holds zero descriptors fails its assertion for every
row, column and descriptor and leaves the table as it was; `SetPoint` on a table built
`W×H` with `W, H ≥ 1`, `row < H` and `col < W` returns. -/
theorem C3_setPoint_failure (t : LookupTable) (W H row col : Nat) (p : BilinearLutPoint) :
    (t.m_vLutPixels.length = 0 → t.SetPoint row col p = .assertFailed t)
      ∧ (1 ≤ W → 1 ≤ H → Reachable (W : Int) (H : Int) t → row < H → col < W →
          ∃ t' : LookupTable, t.SetPoint row col p = .returned t') := by
  constructor
  · intro h0
    unfold LookupTable.SetPoint
    simp [h0]
  · intro _ _ h hr hc
    exact ⟨_, setPoint_reachable p h hr hc⟩

/-- Witness of C3: the default-constructed table fails, the built 2×2 table does not. -/
theorem C3_setPoint_failure_witness :
    (LookupTable.empty 7).SetPoint 0 0 BilinearLutPoint.zeroed
        = .assertFailed (LookupTable.empty 7)
      ∧ ∃ t' : LookupTable,
          LookupTable.SetPoint
            { m_vLutPixels := List.replicate (2 * 2) BilinearLutPoint.zeroed, m_nWidth := 2 }
            1 0 BilinearLutPoint.zeroed = .returned t' :=
  ⟨(C3_setPoint_failure (LookupTable.empty 7) 0 0 0 0 BilinearLutPoint.zeroed).1 rfl,
   (C3_setPoint_failure _ 2 2 1 0 BilinearLutPoint.zeroed).2 (by decide) (by decide)
     (Reachable.built (build_nat (by decide))) (by decide) (by decide)⟩

/-- The copy constructor returns a table equal to its argument. -/
theorem copy_eq (t : LookupTable) : LookupTable.copy t = t := rfl

/-- A write to another buffer does not change the table an object holds. -/
theorem value_write_other (o : TableObject) (s : Store) {address : Nat}
    (elements : List BilinearLutPoint) (hne : address ≠ o.pixels) :
    o.value (s.write address elements) = o.value s := by
  unfold TableObject.value Store.read Store.write
  rw [List.getElem?_set_ne hne]

/-- After a write to its own buffer an object holds the written elements. -/
theorem value_write_same (o : TableObject) (s : Store) (elements : List BilinearLutPoint)
    (hlt : o.pixels < s.buffers.length) :
    o.value (s.write o.pixels elements)
      = some { m_vLutPixels := elements, m_nWidth := o.m_nWidth } := by
  unfold TableObject.value Store.read Store.write
  rw [List.getElem?_set_self hlt]
  rfl

/-- An object that holds a table has a buffer in the store, with the elements and the width
of the table. -/
theorem value_eq_some {o : TableObject} {s : Store} {t : LookupTable}
    (h : o.value s = some t) :
    s.read o.pixels = some t.m_vLutPixels ∧ o.m_nWidth = t.m_nWidth
      ∧ o.pixels < s.buffers.length := by
  unfold TableObject.value at h
  cases hr : s.read o.pixels with
  | none => rw [hr] at h; cases h
  | some elements =>
    rw [hr] at h
    have ht := Option.some.inj h
    subst ht
    refine ⟨rfl, rfl, ?_⟩
    unfold Store.read at hr
    by_contra hge
    rw [List.getElem?_eq_none (not_lt.mp hge)] at hr
    cases hr

/-- What the copy constructor returns on an object that holds a table: the store with one
more buffer, which holds the elements of the table, and the object that owns it. -/
theorem copyConstruct_eq {o : TableObject} {s : Store} {t : LookupTable}
    (h : o.value s = some t) :
    TableObject.copyConstruct s o
      = some ({ buffers := s.buffers ++ [t.m_vLutPixels] },
              { pixels := s.buffers.length, m_nWidth := t.m_nWidth }) := by
  obtain ⟨hr, hw, hlt⟩ := value_eq_some h
  have hr1 : (Store.allocate s
      (List.replicate t.m_vLutPixels.length BilinearLutPoint.zeroed)).1.read o.pixels
        = some t.m_vLutPixels := by
    unfold Store.read at hr
    unfold Store.allocate Store.read
    dsimp only
    rw [List.getElem?_append_left hlt]
    exact hr
  unfold TableObject.copyConstruct
  rw [hr]
  dsimp only
  rw [hr1]
  dsimp only
  rw [hw]
  unfold Store.allocate Store.write
  dsimp only
  rw [List.set_append_right _ _ (Nat.le_refl _)]
  simp

/-- C4: for a table `t` built `W×H` and then modified by in-range `SetPoint` calls (or
copied), held by an object `o`, the copy constructor returns a full value copy with storage
of its own: the copy has the same `Width()`, the same `Height()`, the same number of
descriptors and the same descriptor at every position as `t`; the new object `c` owns a
buffer other than the buffer of `o` and holds the copy, while `o` still holds `t`; an
in-range `SetPoint` on `c` returns, stores the descriptor in `c` and leaves `o` holding `t`;
and an in-range `SetPoint` on `o` returns, stores the descriptor in `o` and leaves `c`
holding the copy of `t`. -/
theorem C4_copy_is_value_copy (W H : Nat) (t : LookupTable) (s : Store) (o : TableObject)
    (h : Reachable (W : Int) (H : Int) t) (ho : o.value s = some t) :
    (LookupTable.copy t).Width = t.Width
      ∧ (LookupTable.copy t).Height = t.Height
      ∧ (LookupTable.copy t).m_vLutPixels.length = t.m_vLutPixels.length
      ∧ (∀ i, (LookupTable.copy t).point? i = t.point? i)
      ∧ ∃ (s' : Store) (c : TableObject), TableObject.copyConstruct s o = some (s', c)
          ∧ c.pixels ≠ o.pixels
          ∧ c.value s' = some (LookupTable.copy t)
          ∧ o.value s' = some t
          ∧ (∀ row col p, row < H → col < W →
              ∃ (s'' : Store) (c' : LookupTable),
                TableObject.SetPoint s' c row col p = some s''
                  ∧ c.value s'' = some c'
                  ∧ c'.point? (row * W + col) = some p
                  ∧ o.value s'' = some t)
          ∧ (∀ row col p, row < H → col < W →
              ∃ (s'' : Store) (o' : LookupTable),
                TableObject.SetPoint s' o row col p = some s''
                  ∧ o.value s'' = some o'
                  ∧ o'.point? (row * W + col) = some p
                  ∧ c.value s'' = some (LookupTable.copy t)) := by
  obtain ⟨_, hl, _⟩ := reachable_shape h
  obtain ⟨hr, hw, hlt⟩ := value_eq_some ho
  have hne : s.buffers.length ≠ o.pixels := by omega
  have hcv : TableObject.value { pixels := s.buffers.length, m_nWidth := t.m_nWidth }
      { buffers := s.buffers ++ [t.m_vLutPixels] } = some t := by
    unfold TableObject.value Store.read
    simp
  have hov : o.value { buffers := s.buffers ++ [t.m_vLutPixels] } = some t := by
    unfold Store.read at hr
    unfold TableObject.value Store.read
    dsimp only
    rw [List.getElem?_append_left hlt, hr, hw]
    rfl
  refine ⟨rfl, rfl, rfl, fun _ => rfl, _, _, copyConstruct_eq ho, hne, hcv, hov, ?_, ?_⟩
  · intro row col p hr' hc'
    have hs := setPoint_reachable p h hr' hc'
    have hlt' := cell_lt hr' hc'
    refine ⟨Store.write { buffers := s.buffers ++ [t.m_vLutPixels] } s.buffers.length
        (t.m_vLutPixels.set (row * W + col) p),
      { t with m_vLutPixels := t.m_vLutPixels.set (row * W + col) p }, ?_, ?_, ?_, ?_⟩
    · unfold TableObject.SetPoint
      rw [hcv]
      dsimp only
      rw [hs]
    · exact value_write_same _ _ _ (by simp)
    · unfold LookupTable.point?
      simp [hl, hlt']
    · rw [value_write_other o _ _ hne]
      exact hov
  · intro row col p hr' hc'
    have hs := setPoint_reachable p h hr' hc'
    have hlt' := cell_lt hr' hc'
    refine ⟨Store.write { buffers := s.buffers ++ [t.m_vLutPixels] } o.pixels
        (t.m_vLutPixels.set (row * W + col) p),
      { m_vLutPixels := t.m_vLutPixels.set (row * W + col) p,
        m_nWidth := o.m_nWidth }, ?_, ?_, ?_, ?_⟩
    · unfold TableObject.SetPoint
      rw [hov]
      dsimp only
      rw [hs]
    · exact value_write_same _ _ _ (by simp; omega)
    · unfold LookupTable.point?
      simp [hl, hlt']
    · rw [value_write_other _ _ _ (Ne.symm hne)]
      exact hcv

/-- Witness of C4: the 2×2 table after `SetPoint(0, 1, q)`, held by the object at address
0. The copy holds the written descriptor too; a `SetPoint(1, 0, r)` on the copy leaves the
original as it was, and a `SetPoint(1, 0, r)` on the original leaves the copy as it was. -/
theorem C4_copy_is_value_copy_witness :
    ∃ (s' : Store) (c : TableObject),
      TableObject.copyConstruct
          ⟨[(List.replicate (2 * 2) BilinearLutPoint.zeroed).set (0 * 2 + 1) ⟨5, 7, 1, 0, 0, 0⟩]⟩
          ⟨0, ((2 : Nat) : Int)⟩ = some (s', c)
        ∧ c.pixels ≠ 0
        ∧ c.value s' = some
            ⟨(List.replicate (2 * 2) BilinearLutPoint.zeroed).set (0 * 2 + 1) ⟨5, 7, 1, 0, 0, 0⟩,
              ((2 : Nat) : Int)⟩
        ∧ (∃ (s'' : Store) (c' : LookupTable),
            TableObject.SetPoint s' c 1 0 ⟨9, 11, 0, 1, 0, 0⟩ = some s''
              ∧ c.value s'' = some c'
              ∧ c'.point? (1 * 2 + 0) = some ⟨9, 11, 0, 1, 0, 0⟩
              ∧ TableObject.value ⟨0, ((2 : Nat) : Int)⟩ s'' = some
                  ⟨(List.replicate (2 * 2) BilinearLutPoint.zeroed).set (0 * 2 + 1)
                    ⟨5, 7, 1, 0, 0, 0⟩, ((2 : Nat) : Int)⟩)
        ∧ (∃ (s'' : Store) (o' : LookupTable),
            TableObject.SetPoint s' ⟨0, ((2 : Nat) : Int)⟩ 1 0 ⟨9, 11, 0, 1, 0, 0⟩ = some s''
              ∧ TableObject.value ⟨0, ((2 : Nat) : Int)⟩ s'' = some o'
              ∧ o'.point? (1 * 2 + 0) = some ⟨9, 11, 0, 1, 0, 0⟩
              ∧ c.value s'' = some
                  ⟨(List.replicate (2 * 2) BilinearLutPoint.zeroed).set (0 * 2 + 1)
                    ⟨5, 7, 1, 0, 0, 0⟩, ((2 : Nat) : Int)⟩) := by
  obtain ⟨_, _, _, _, s', c, h1, h2, h3, _, h5, h6⟩ :=
    C4_copy_is_value_copy 2 2
      ⟨(List.replicate (2 * 2) BilinearLutPoint.zeroed).set (0 * 2 + 1) ⟨5, 7, 1, 0, 0, 0⟩,
        ((2 : Nat) : Int)⟩
      ⟨[(List.replicate (2 * 2) BilinearLutPoint.zeroed).set (0 * 2 + 1) ⟨5, 7, 1, 0, 0, 0⟩]⟩
      ⟨0, ((2 : Nat) : Int)⟩
      (Reachable.setPoint 0 1 ⟨5, 7, 1, 0, 0, 0⟩
        (Reachable.built (build_nat (by decide))) (by decide) (by decide)
        (setPoint_reachable _ (Reachable.built (build_nat (by decide))) (by decide) (by decide)))
      rfl
  exact ⟨s', c, h1, h2, h3, h5 1 0 ⟨9, 11, 0, 1, 0, 0⟩ (by decide) (by decide),
    h6 1 0 ⟨9, 11, 0, 1, 0, 0⟩ (by decide) (by decide)⟩

/-- C8: every table reachable from `LookupTable(W, H)` with `W ≥ 1` (an `int`) and `H ≥ 0`
through in-range `SetPoint` calls and copy constructions satisfies `size % width == 0`, its
`Height()` is `H`, and `Width() * Height()` is the number of descriptors. -/
theorem C8_size_multiple_of_width (W H : Nat) (t : LookupTable) (hW : 1 ≤ W)
    (hWi : (W : Int) ≤ INT_MAX) (h : Reachable (W : Int) (H : Int) t) :
    (t.m_vLutPixels.length : Int) % t.m_nWidth = 0
      ∧ t.m_vLutPixels.length % t.Width = 0
      ∧ t.Height = .ok H
      ∧ t.Width * H = t.m_vLutPixels.length := by
  obtain ⟨hw, hl, hle⟩ := reachable_shape h
  have hWn : W ≤ 2 ^ 31 - 1 := by unfold INT_MAX at hWi; omega
  obtain ⟨hwidth, hheight⟩ := width_height_of_shape hW hWn hw hl hle
  refine ⟨?_, ?_, hheight, ?_⟩
  · rw [hw, hl]
    push_cast
    exact Int.mul_emod_right _ _
  · rw [hwidth, hl]
    exact Nat.mul_mod_right _ _
  · rw [hwidth, hl]

/-- Witness of C8 on the 2×2 table after one `SetPoint` and a copy. -/
theorem C8_size_multiple_of_width_witness :
    ((4 : Nat) : Int) % 2 = 0
      ∧ LookupTable.Height
          ⟨(List.replicate (2 * 2) BilinearLutPoint.zeroed).set (1 * 2 + 0) ⟨5, 7, 1, 0, 0, 0⟩, 2⟩
          = .ok 2 :=
  have h := C8_size_multiple_of_width 2 2
    ⟨(List.replicate (2 * 2) BilinearLutPoint.zeroed).set (1 * 2 + 0) ⟨5, 7, 1, 0, 0, 0⟩, 2⟩
    (by decide) (by decide)
    (Reachable.copied (Reachable.setPoint 1 0 ⟨5, 7, 1, 0, 0, 0⟩
      (Reachable.built (build_nat (by decide))) (by decide) (by decide)
      (setPoint_reachable _ (Reachable.built (build_nat (by decide))) (by decide) (by decide))))
  ⟨by decide, h.2.2.1⟩

/-- Two cells of the grid with the same row-major position are the same cell. -/
theorem cell_injective {W row col row' col' : Nat} (hc : col < W) (hc' : col' < W)
    (he : row * W + col = row' * W + col') : row = row' ∧ col = col' := by
  have hWpos : 0 < W := by omega
  have h1 : (row * W + col) / W = row := by
    rw [Nat.mul_comm, Nat.mul_add_div hWpos, Nat.div_eq_of_lt hc, Nat.add_zero]
  have h2 : (row' * W + col') / W = row' := by
    rw [Nat.mul_comm, Nat.mul_add_div hWpos, Nat.div_eq_of_lt hc', Nat.add_zero]
  have hrow : row = row' := by rw [← h1, ← h2, he]
  subst hrow
  exact ⟨rfl, by omega⟩

/-- C9: on a table built `W×H` (and possibly written to since), for every `row < H`,
`col < W` and `p`, `SetPoint(row, col, p)` returns and afterwards the stored width,
`Width()`, `Height()`, the number of descriptors and the descriptor of every other cell
`(row', col')` of the grid are what they were before the call. The bounds `W ≥ 1` and
`H ≥ 1` of the claim follow from `col < W` and `row < H`. -/
theorem C9_setPoint_frame (W H : Nat) (t : LookupTable) (row col : Nat)
    (p : BilinearLutPoint) (h : Reachable (W : Int) (H : Int) t)
    (hr : row < H) (hc : col < W) :
    ∃ t' : LookupTable, t.SetPoint row col p = .returned t'
      ∧ t'.m_nWidth = t.m_nWidth
      ∧ t'.Width = t.Width
      ∧ t'.Height = t.Height
      ∧ t'.m_vLutPixels.length = t.m_vLutPixels.length
      ∧ ∀ row' col', row' < H → col' < W → (row', col') ≠ (row, col) →
          t'.point? (row' * W + col') = t.point? (row' * W + col') := by
  refine ⟨_, setPoint_reachable p h hr hc, rfl, rfl, ?_, by simp, ?_⟩
  · unfold LookupTable.Height
    simp
  · intro row' col' _ hc' hne
    have hidx : row * W + col ≠ row' * W + col' := by
      intro he
      obtain ⟨h1, h2⟩ := cell_injective hc hc' he
      exact hne (by rw [h1, h2])
    unfold LookupTable.point?
    simp [List.getElem?_set_ne hidx]

/-- Witness of C9 on the freshly built 2×2 table, cell `(0, 1)`. -/
theorem C9_setPoint_frame_witness :
    ∃ t' : LookupTable,
      LookupTable.SetPoint ⟨List.replicate (2 * 2) BilinearLutPoint.zeroed, 2⟩ 0 1
          ⟨5, 7, 1, 0, 0, 0⟩ = .returned t'
        ∧ t'.m_vLutPixels.length = 2 * 2
        ∧ t'.point? (1 * 2 + 1) = some BilinearLutPoint.zeroed := by
  obtain ⟨t', h1, _, _, _, h5, h6⟩ :=
    C9_setPoint_frame 2 2 ⟨List.replicate (2 * 2) BilinearLutPoint.zeroed, 2⟩ 0 1
      ⟨5, 7, 1, 0, 0, 0⟩ (Reachable.built (build_nat (by decide))) (by decide) (by decide)
  refine ⟨t', h1, ?_, ?_⟩
  · rw [h5]; simp
  · rw [h6 1 1 (by decide) (by decide) (by decide)]
    rfl

/-! ## The range bound finders -/

/-- The lower end after `ExcludeLessThan` is the larger of the old end and the argument. -/
theorem excludeLessThan_eq (r : Range) (x : ℚ) :
    r.ExcludeLessThan x = { lo := r.lo ⊔ (x : WithBot ℚ), hi := r.hi } := by
  unfold Range.ExcludeLessThan
  split_ifs with hx
  · rw [sup_eq_right.mpr (le_of_lt hx)]
  · rw [sup_eq_left.mpr (not_lt.mp hx)]

/-- The upper end after `ExcludeGreaterThan` is the smaller of the old end and the
argument. -/
theorem excludeGreaterThan_eq (r : Range) (x : ℚ) :
    r.ExcludeGreaterThan x = { lo := r.lo, hi := r.hi ⊓ (x : WithTop ℚ) } := by
  unfold Range.ExcludeGreaterThan
  split_ifs with hx
  · rw [inf_eq_right.mpr (le_of_lt hx)]
  · rw [inf_eq_left.mpr (not_lt.mp hx)]

/-- A loop that excludes below `f i` and above `g i` for every `i` of a list ends with the
largest `f i` as lower end and the smallest `g i` as upper end, the starting range
included. -/
theorem foldl_exclude (f g : Nat → ℚ) (l : List Nat) (r : Range) :
    l.foldl (fun range i => (range.ExcludeLessThan (f i)).ExcludeGreaterThan (g i)) r
      = { lo := r.lo ⊔ (l.map f).maximum, hi := r.hi ⊓ (l.map g).minimum } := by
  induction l generalizing r with
  | nil => simp
  | cons a l ih =>
    rw [List.foldl_cons, ih, excludeGreaterThan_eq, excludeLessThan_eq]
    simp only [List.map_cons, List.maximum_cons, List.minimum_cons]
    rw [sup_assoc, inf_assoc]

/-- The loop body of `MinMaxRotatedCol` excludes below `l(row)` and above `r(row)`. -/
theorem minMaxRotatedCol_body (wrap : ℚ) (cam : CameraInterface) (R : Matrix3d) :
    MinMaxRotatedCol.body wrap cam R = fun range row =>
      (range.ExcludeLessThan (leftProjection cam R row)).ExcludeGreaterThan
        (rightProjection wrap cam R row) := rfl

/-- The loop body of `MinMaxRotatedRow` excludes below `t(col)` and above `b(col)`. -/
theorem minMaxRotatedRow_body (wrap : ℚ) (cam : CameraInterface) (R : Matrix3d) :
    MinMaxRotatedRow.body wrap cam R = fun range col =>
      (range.ExcludeLessThan (topProjection cam R col)).ExcludeGreaterThan
        (bottomProjection wrap cam R col) := rfl

/-- The range `MinMaxRotatedCol` returns, for every camera and matrix. -/
theorem minMaxRotatedCol_eq (wrap : ℚ) (cam : CameraInterface) (R : Matrix3d) :
    MinMaxRotatedCol wrap cam R =
      { lo := ((List.range cam.Height).map (leftProjection cam R)).maximum,
        hi := ((List.range cam.Height).map (rightProjection wrap cam R)).minimum } := by
  unfold MinMaxRotatedCol
  rw [minMaxRotatedCol_body, foldl_exclude]
  simp [Range.Open]

/-- The range `MinMaxRotatedRow` returns, for every camera and matrix. -/
theorem minMaxRotatedRow_eq (wrap : ℚ) (cam : CameraInterface) (R : Matrix3d) :
    MinMaxRotatedRow wrap cam R =
      { lo := ((List.range cam.Width).map (topProjection cam R)).maximum,
        hi := ((List.range cam.Width).map (bottomProjection wrap cam R)).minimum } := by
  unfold MinMaxRotatedRow
  rw [minMaxRotatedRow_body, foldl_exclude]
  simp [Range.Open]

/-- The maximum of the values of `f` on `0, ..., n-1`, `n ≥ 1`, is one of the values and
bounds them all. -/
theorem maximum_range (f : Nat → ℚ) {n : Nat} (hn : 1 ≤ n) :
    (∃ i, i < n ∧ ((List.range n).map f).maximum = (f i : WithBot ℚ))
      ∧ ∀ i, i < n → (f i : WithBot ℚ) ≤ ((List.range n).map f).maximum := by
  constructor
  · have hpos : 0 < ((List.range n).map f).length := by simp; omega
    have hmem := List.maximum_of_length_pos_mem hpos
    obtain ⟨i, hi, hfi⟩ := List.mem_map.mp hmem
    refine ⟨i, List.mem_range.mp hi, ?_⟩
    rw [hfi, List.coe_maximum_of_length_pos]
  · intro i hi
    exact List.le_maximum_of_mem' (List.mem_map.mpr ⟨i, List.mem_range.mpr hi, rfl⟩)

/-- The minimum of the values of `g` on `0, ..., n-1`, `n ≥ 1`, is one of the values and
bounds them all. -/
theorem minimum_range (g : Nat → ℚ) {n : Nat} (hn : 1 ≤ n) :
    (∃ i, i < n ∧ ((List.range n).map g).minimum = (g i : WithTop ℚ))
      ∧ ∀ i, i < n → ((List.range n).map g).minimum ≤ (g i : WithTop ℚ) := by
  constructor
  · have hpos : 0 < ((List.range n).map g).length := by simp; omega
    have hmem := List.minimum_of_length_pos_mem hpos
    obtain ⟨i, hi, hgi⟩ := List.mem_map.mp hmem
    refine ⟨i, List.mem_range.mp hi, ?_⟩
    rw [hgi, List.coe_minimum_of_length_pos]
  · intro i hi
    exact List.minimum_le_of_mem' (List.mem_map.mpr ⟨i, List.mem_range.mpr hi, rfl⟩)

/-- The identity rotation leaves every ray as it is. -/
theorem identity_mulVec (v : Vector3d) : Matrix3d.Identity.mulVec v = v := by
  cases v
  simp [Matrix3d.mulVec, Matrix3d.Identity]

/-- The last index of a dimension `n ≥ 1` is the natural number `n - 1`. -/
theorem lastIndex_pos (wrap : ℚ) {n : Nat} (hn : 1 ≤ n) :
    lastIndex wrap n = ((n - 1 : Nat) : ℚ) := by
  unfold lastIndex
  have : ¬ (n = 0) := by omega
  simp only [this, if_false]
  push_cast [Nat.cast_sub hn]
  ring

/-- The example pinhole camera is linear. -/
theorem pinholeCamera_isLinear (width height : Nat) : IsLinear (pinholeCamera width height) := by
  intro col row _ _
  simp [pinholeCamera]

/-- C5: for every linear camera of width `W ≥ 1` and height `H ≥ 1` and the identity
rotation, `MinMaxRotatedCol` returns the interval with `lo = 0` and `hi = W-1` and
`MinMaxRotatedRow` returns the interval with `lo = 0` and `hi = H-1`, where `Range::Open`,
`ExcludeLessThan` and `ExcludeGreaterThan` are the ones the spec describes. -/
theorem C5_identity_linear_no_narrowing (wrap : ℚ) (cam : CameraInterface)
    (hW : 1 ≤ cam.Width) (hH : 1 ≤ cam.Height) (hlin : IsLinear cam) :
    MinMaxRotatedCol wrap cam Matrix3d.Identity
        = { lo := ((0 : ℚ) : WithBot ℚ), hi := (((cam.Width : ℚ) - 1 : ℚ) : WithTop ℚ) }
      ∧ MinMaxRotatedRow wrap cam Matrix3d.Identity
        = { lo := ((0 : ℚ) : WithBot ℚ), hi := (((cam.Height : ℚ) - 1 : ℚ) : WithTop ℚ) } := by
  have hl : ∀ row, row < cam.Height → leftProjection cam Matrix3d.Identity row = 0 := by
    intro row hrow
    unfold leftProjection
    rw [identity_mulVec]
    have := hlin 0 row (by omega) hrow
    rw [Nat.cast_zero] at this
    rw [this]
  have hr : ∀ row, row < cam.Height →
      rightProjection wrap cam Matrix3d.Identity row = (cam.Width : ℚ) - 1 := by
    intro row hrow
    unfold rightProjection
    rw [identity_mulVec, lastIndex_pos wrap hW, hlin (cam.Width - 1) row (by omega) hrow]
    push_cast [Nat.cast_sub hW]
    ring
  have ht : ∀ col, col < cam.Width → topProjection cam Matrix3d.Identity col = 0 := by
    intro col hcol
    unfold topProjection
    rw [identity_mulVec]
    have := hlin col 0 hcol (by omega)
    rw [Nat.cast_zero] at this
    rw [this]
  have hb : ∀ col, col < cam.Width →
      bottomProjection wrap cam Matrix3d.Identity col = (cam.Height : ℚ) - 1 := by
    intro col hcol
    unfold bottomProjection
    rw [identity_mulVec, lastIndex_pos wrap hH, hlin col (cam.Height - 1) hcol (by omega)]
    push_cast [Nat.cast_sub hH]
    ring
  constructor
  · rw [minMaxRotatedCol_eq]
    obtain ⟨i, hi, hmax⟩ := (maximum_range (leftProjection cam Matrix3d.Identity) hH).1
    obtain ⟨j, hj, hmin⟩ :=
      (minimum_range (rightProjection wrap cam Matrix3d.Identity) hH).1
    rw [hmax, hmin, hl i hi, hr j hj]
  · rw [minMaxRotatedRow_eq]
    obtain ⟨i, hi, hmax⟩ := (maximum_range (topProjection cam Matrix3d.Identity) hW).1
    obtain ⟨j, hj, hmin⟩ :=
      (minimum_range (bottomProjection wrap cam Matrix3d.Identity) hW).1
    rw [hmax, hmin, ht i hi, hb j hj]

/-- Witness of C5 on the 4×3 pinhole camera. -/
theorem C5_identity_linear_no_narrowing_witness :
    MinMaxRotatedCol (-1) (pinholeCamera 4 3) Matrix3d.Identity
        = { lo := ((0 : ℚ) : WithBot ℚ), hi := ((((4 : Nat) : ℚ) - 1 : ℚ) : WithTop ℚ) }
      ∧ MinMaxRotatedRow (-1) (pinholeCamera 4 3) Matrix3d.Identity
        = { lo := ((0 : ℚ) : WithBot ℚ), hi := ((((3 : Nat) : ℚ) - 1 : ℚ) : WithTop ℚ) } :=
  C5_identity_linear_no_narrowing (-1) (pinholeCamera 4 3) (by decide) (by decide)
    (pinholeCamera_isLinear 4 3)

/-- C6: for every camera of width `W` and height `H ≥ 1` and every matrix `R`, the interval
`MinMaxRotatedCol(cam, R)` returns has `lo` equal to the maximum of `l(row)` and `hi` equal
to the minimum of `r(row)` over the rows `0 ≤ row < H`: each is the list maximum (minimum),
is attained at some row, and `l(row) ≤ lo` and `hi ≤ r(row)` for every row. -/
theorem C6_col_range_is_max_min (wrap : ℚ) (cam : CameraInterface) (R : Matrix3d)
    (hH : 1 ≤ cam.Height) :
    (MinMaxRotatedCol wrap cam R).lo
        = ((List.range cam.Height).map (leftProjection cam R)).maximum
      ∧ (MinMaxRotatedCol wrap cam R).hi
        = ((List.range cam.Height).map (rightProjection wrap cam R)).minimum
      ∧ (∃ row, row < cam.Height
          ∧ (MinMaxRotatedCol wrap cam R).lo = (leftProjection cam R row : WithBot ℚ))
      ∧ (∃ row, row < cam.Height
          ∧ (MinMaxRotatedCol wrap cam R).hi = (rightProjection wrap cam R row : WithTop ℚ))
      ∧ ∀ row, row < cam.Height →
          (leftProjection cam R row : WithBot ℚ) ≤ (MinMaxRotatedCol wrap cam R).lo
            ∧ (MinMaxRotatedCol wrap cam R).hi ≤ (rightProjection wrap cam R row : WithTop ℚ) := by
  rw [minMaxRotatedCol_eq]
  obtain ⟨hmax, hle⟩ := maximum_range (leftProjection cam R) hH
  obtain ⟨hmin, hge⟩ := minimum_range (rightProjection wrap cam R) hH
  exact ⟨rfl, rfl, hmax, hmin, fun row hrow => ⟨hle row hrow, hge row hrow⟩⟩

/-- Witness of C6 on the 4×3 pinhole camera and a matrix that shears the rays. -/
theorem C6_col_range_is_max_min_witness :
    ∃ row, row < (pinholeCamera 4 3).Height
      ∧ (MinMaxRotatedCol (-1) (pinholeCamera 4 3) ⟨1, 1, 0, 0, 1, 0, 0, 0, 1⟩).lo
        = (leftProjection (pinholeCamera 4 3) ⟨1, 1, 0, 0, 1, 0, 0, 0, 1⟩ row : WithBot ℚ) :=
  (C6_col_range_is_max_min (-1) (pinholeCamera 4 3) ⟨1, 1, 0, 0, 1, 0, 0, 0, 1⟩
    (by decide)).2.2.1

/-- C7: for every camera of width `W ≥ 1` and height `H` and every matrix `R`, the interval
`MinMaxRotatedRow(cam, R)` returns has `lo` equal to the maximum of `t(col)` and `hi` equal
to the minimum of `b(col)` over the columns `0 ≤ col < W`: each is the list maximum
(minimum), is attained at some column, and bounds the values of all columns. -/
theorem C7_row_range_is_max_min (wrap : ℚ) (cam : CameraInterface) (R : Matrix3d)
    (hW : 1 ≤ cam.Width) :
    (MinMaxRotatedRow wrap cam R).lo
        = ((List.range cam.Width).map (topProjection cam R)).maximum
      ∧ (MinMaxRotatedRow wrap cam R).hi
        = ((List.range cam.Width).map (bottomProjection wrap cam R)).minimum
      ∧ (∃ col, col < cam.Width
          ∧ (MinMaxRotatedRow wrap cam R).lo = (topProjection cam R col : WithBot ℚ))
      ∧ (∃ col, col < cam.Width
          ∧ (MinMaxRotatedRow wrap cam R).hi = (bottomProjection wrap cam R col : WithTop ℚ))
      ∧ ∀ col, col < cam.Width →
          (topProjection cam R col : WithBot ℚ) ≤ (MinMaxRotatedRow wrap cam R).lo
            ∧ (MinMaxRotatedRow wrap cam R).hi ≤ (bottomProjection wrap cam R col : WithTop ℚ) := by
  rw [minMaxRotatedRow_eq]
  obtain ⟨hmax, hle⟩ := maximum_range (topProjection cam R) hW
  obtain ⟨hmin, hge⟩ := minimum_range (bottomProjection wrap cam R) hW
  exact ⟨rfl, rfl, hmax, hmin, fun col hcol => ⟨hle col hcol, hge col hcol⟩⟩

/-- Witness of C7 on the 4×3 pinhole camera and a matrix that shears the rays. -/
theorem C7_row_range_is_max_min_witness :
    ∃ col, col < (pinholeCamera 4 3).Width
      ∧ (MinMaxRotatedRow (-1) (pinholeCamera 4 3) ⟨1, 0, 0, 1, 1, 0, 0, 0, 1⟩).hi
        = (bottomProjection (-1) (pinholeCamera 4 3) ⟨1, 0, 0, 1, 1, 0, 0, 0, 1⟩ col
            : WithTop ℚ) :=
  (C7_row_range_is_max_min (-1) (pinholeCamera 4 3) ⟨1, 0, 0, 1, 1, 0, 0, 0, 1⟩
    (by decide)).2.2.2.1

/-! ## The bilinear weights -/

/-- On non-negative coordinates the documented descriptor, which truncates, is the one of
the spec, which takes the floor. -/
theorem documentedLutPoint_eq_spec (width : Int) {x y : ℚ} (hx : 0 ≤ x) (hy : 0 ≤ y) :
    documentedLutPoint width x y = specLutPoint width x y := by
  unfold documentedLutPoint specLutPoint truncToInt
  simp only [hx, hy, if_true]
  rw [mul_comm width]

/-- The documented weights sum to one for every coordinate, negative ones included. -/
theorem documentedLutPoint_sum (width : Int) (x y : ℚ) :
    (documentedLutPoint width x y).w00 + (documentedLutPoint width x y).w01
      + (documentedLutPoint width x y).w10 + (documentedLutPoint width x y).w11 = 1 := by
  unfold documentedLutPoint
  ring

/-- C10: for every source coordinate `(x, y)`, with `ax = x - floor(x)` and
`ay = y - floor(y)`, the weights of the descriptor are `w00 = (1-ax)(1-ay)`,
`w01 = ax(1-ay)`, `w10 = (1-ax)ay` and `w11 = ax*ay`, each lies in `[0, 1]`, and the four
sum to exactly 1. -/
theorem C10_weights_unit_sum (sourceWidth : Int) (x y : ℚ) :
    (0 ≤ Int.fract x ∧ Int.fract x < 1 ∧ 0 ≤ Int.fract y ∧ Int.fract y < 1)
      ∧ (specLutPoint sourceWidth x y).w00 = (1 - Int.fract x) * (1 - Int.fract y)
      ∧ (specLutPoint sourceWidth x y).w01 = Int.fract x * (1 - Int.fract y)
      ∧ (specLutPoint sourceWidth x y).w10 = (1 - Int.fract x) * Int.fract y
      ∧ (specLutPoint sourceWidth x y).w11 = Int.fract x * Int.fract y
      ∧ (0 ≤ (specLutPoint sourceWidth x y).w00 ∧ (specLutPoint sourceWidth x y).w00 ≤ 1)
      ∧ (0 ≤ (specLutPoint sourceWidth x y).w01 ∧ (specLutPoint sourceWidth x y).w01 ≤ 1)
      ∧ (0 ≤ (specLutPoint sourceWidth x y).w10 ∧ (specLutPoint sourceWidth x y).w10 ≤ 1)
      ∧ (0 ≤ (specLutPoint sourceWidth x y).w11 ∧ (specLutPoint sourceWidth x y).w11 ≤ 1)
      ∧ (specLutPoint sourceWidth x y).w00 + (specLutPoint sourceWidth x y).w01
          + (specLutPoint sourceWidth x y).w10 + (specLutPoint sourceWidth x y).w11 = 1 := by
  have hx0 : 0 ≤ Int.fract x := Int.fract_nonneg x
  have hx1 : Int.fract x < 1 := Int.fract_lt_one x
  have hy0 : 0 ≤ Int.fract y := Int.fract_nonneg y
  have hy1 : Int.fract y < 1 := Int.fract_lt_one y
  have hfx : x - (⌊x⌋ : ℚ) = Int.fract x := rfl
  have hfy : y - (⌊y⌋ : ℚ) = Int.fract y := rfl
  unfold specLutPoint
  simp only [hfx, hfy]
  refine ⟨⟨hx0, hx1, hy0, hy1⟩, trivial, trivial, trivial, trivial, ⟨?_, ?_⟩, ⟨?_, ?_⟩, ⟨?_, ?_⟩, ⟨?_, ?_⟩, ?_⟩
  · nlinarith
  · nlinarith
  · nlinarith
  · nlinarith
  · nlinarith
  · nlinarith
  · nlinarith
  · nlinarith
  · ring

/-! ## Rectify with the identity-mapping table -/

/-- A loop in which every pixel is computed yields the list of the computed pixels. -/
theorem mapM_ok {α β : Type} (f : α → Except Fault β) (g : α → β) (l : List α)
    (h : ∀ a, a ∈ l → f a = .ok (g a)) : l.mapM f = .ok (l.map g) := by
  induction l with
  | nil => rfl
  | cons a l ih =>
    have ha : f a = .ok (g a) := h a (List.mem_cons_self a l)
    have hl : l.mapM f = .ok (l.map g) := ih (fun b hb => h b (List.mem_cons_of_mem a hb))
    rw [List.mapM_cons, ha, hl]
    rfl

/-- A sample inside the buffer is the value of the byte stored there, whatever lies
outside. -/
theorem readSample_inside (outside : Int → Byte) {input : List Byte} {n : Nat} {b : Byte}
    (h : input[n]? = some b) : readSample outside input (n : Int) = (b.val : ℚ) := by
  unfold readSample
  simp only [Int.natCast_nonneg, if_true, Int.toNat_natCast, h]

/-- Truncating the value of a byte gives the byte back. -/
theorem toPixel_byte (b : Byte) : toPixel (b.val : ℚ) = .ok b := by
  have hb := b.isLt
  have htr : truncToInt ((b.val : ℕ) : ℚ) = (b.val : Int) := by
    unfold truncToInt
    have h0 : (0 : ℚ) ≤ ((b.val : ℕ) : ℚ) := Nat.cast_nonneg _
    simp only [h0, if_true]
    exact Int.floor_natCast _
  unfold toPixel
  simp only [htr]
  have hr : (0 : Int) ≤ (b.val : Int) ∧ (b.val : Int) < 256 := by omega
  rw [dif_pos hr]
  congr 1

/-- The descriptor at position `i` of the identity-mapping table points at position `i`. -/
theorem identityPoint_at (w i : Nat) :
    identityPoint w (i % w) (i / w)
      = { idx0 := (i : Int), idx1 := (i : Int) + (w : Int),
          w00 := 1, w01 := 0, w10 := 0, w11 := 0 } := by
  have h : ((i / w : Nat) : Int) * (w : Int) + ((i % w : Nat) : Int) = (i : Int) := by
    exact_mod_cast Nat.div_add_mod' i w
  unfold identityPoint
  rw [h]

/-- The descriptors of the identity-mapping table. -/
theorem identityTable_getElem? (w h i : Nat) (hi : i < w * h) :
    (identityTable w h).m_vLutPixels[i]? = some (identityPoint w (i % w) (i / w)) := by
  unfold identityTable
  simp [List.getElem?_map, List.getElem?_range hi]

/-- The weighted sum of an identity descriptor whose top-left sample lies inside the buffer
is the value of that sample: the three other samples carry the weight 0, wherever they
lie. -/
theorem weightedSum_identity (outside : Int → Byte) {input : List Byte} {w i : Nat} {b : Byte}
    (h0 : input[i]? = some b) :
    weightedSum outside input (identityPoint w (i % w) (i / w)) = (b.val : ℚ) := by
  rw [identityPoint_at]
  unfold weightedSum
  dsimp only
  rw [readSample_inside outside h0]
  ring

/-- The pixel of an identity descriptor whose top-left sample lies inside the buffer is the
byte at its position. -/
theorem rectifyPixel_identity (outside : Int → Byte) {input : List Byte} {w i : Nat} {b : Byte}
    (h0 : input[i]? = some b) :
    rectifyPixel outside input (identityPoint w (i % w) (i / w)) = .ok b := by
  unfold rectifyPixel
  rw [weightedSum_identity outside h0]
  exact toPixel_byte b

/-- The first `n` bytes of a buffer, read one position at a time. -/
theorem map_range_eq_take (input : List Byte) (n : Nat) (hn : n ≤ input.length) :
    (List.range n).map (fun i => (input[i]?).getD 0) = input.take n := by
  apply List.ext_getElem?
  intro k
  by_cases hk : k < n
  · have hk' : k < input.length := by omega
    simp [List.getElem?_map, List.getElem?_range hk, List.getElem?_take, hk,
      List.getElem?_eq_getElem hk']
  · have h1 : ((List.range n).map (fun i => (input[i]?).getD 0))[k]? = none :=
      List.getElem?_eq_none (by simp; omega)
    have h2 : (input.take n)[k]? = none :=
      List.getElem?_eq_none (by simp; omega)
    rw [h1, h2]

/-- The size check of `Rectify` passes on the identity-mapping table and the loop runs over
its `w*h` positions. -/
theorem rectify_identity_unfold (outside : Int → Byte) (w h : Nat) (input : List Byte) :
    Rectify outside (identityTable w h) input (w : Int) (h : Int)
      = (List.range (w * h)).mapM (fun i =>
          match (identityTable w h).m_vLutPixels[i]? with
          | some p => rectifyPixel outside input p
          | none => .error .undefinedBehaviour) := by
  have hprod : (w : Int) * (h : Int) = ((w * h : Nat) : Int) := by push_cast; rfl
  have hlen : (((identityTable w h).m_vLutPixels.length : Nat) : Int) = (w : Int) * (h : Int) := by
    rw [hprod]
    unfold identityTable
    simp
  unfold Rectify
  rw [if_neg (not_not.mpr hlen), hprod, Int.toNat_natCast]

/-- On a buffer that holds at least the `w*h` image bytes, `Rectify` with the
identity-mapping table returns the first `w*h` bytes of the buffer. -/
theorem rectify_identity_take (outside : Int → Byte) (w h : Nat) (input : List Byte)
    (hlen : w * h ≤ input.length) :
    Rectify outside (identityTable w h) input (w : Int) (h : Int)
      = .ok (input.take (w * h)) := by
  rw [rectify_identity_unfold, ← map_range_eq_take input (w * h) hlen]
  apply mapM_ok
  intro i hi
  have hi' : i < w * h := List.mem_range.mp hi
  rw [identityTable_getElem? w h i hi']
  have hb : input[i]? = some input[i] := List.getElem?_eq_getElem (by omega)
  rw [hb]
  exact rectifyPixel_identity outside hb

/-- C11: for every width `w` and height `h`, so for `w ≥ 1` and `h ≥ 1`, and every input
image of `w*h` bytes, `Rectify` applied with the identity-mapping table returns an output
image equal to the input image byte for byte, whatever bytes lie outside the input buffer;
the output byte at position `i` is the truncated weighted sum of the descriptor of
position `i`, and that sum is the value of the input byte at `i`. -/
theorem C11_identity_rectify (outside : Int → Byte) (w h : Nat) (input : List Byte)
    (hlen : input.length = w * h) :
    Rectify outside (identityTable w h) input (w : Int) (h : Int) = .ok input
      ∧ ∀ i b, i < w * h → input[i]? = some b →
          (identityTable w h).m_vLutPixels[i]? = some (identityPoint w (i % w) (i / w))
            ∧ weightedSum outside input (identityPoint w (i % w) (i / w)) = (b.val : ℚ)
            ∧ rectifyPixel outside input (identityPoint w (i % w) (i / w))
                = toPixel (weightedSum outside input (identityPoint w (i % w) (i / w)))
            ∧ rectifyPixel outside input (identityPoint w (i % w) (i / w)) = .ok b := by
  constructor
  · have h1 := rectify_identity_take outside w h input (by omega)
    rw [← hlen, List.take_length] at h1
    exact h1
  · intro i b hi hb
    exact ⟨identityTable_getElem? w h i hi, weightedSum_identity outside hb, rfl,
      rectifyPixel_identity outside hb⟩

/-- Witness of C11: the 4×4 diagonal gradient `0, 17, 34, ..., 255` in a buffer of exactly
sixteen bytes, with the byte 255 everywhere outside the buffer. -/
theorem C11_identity_rectify_witness :
    ([0, 17, 34, 51, 68, 85, 102, 119, 136, 153, 170, 187, 204, 221, 238, 255]
        : List Byte).length = 4 * 4
      ∧ Rectify (fun _ => 255) (identityTable 4 4)
          [0, 17, 34, 51, 68, 85, 102, 119, 136, 153, 170, 187, 204, 221, 238, 255]
          ((4 : Nat) : Int) ((4 : Nat) : Int)
        = .ok [0, 17, 34, 51, 68, 85, 102, 119, 136, 153, 170, 187, 204, 221, 238, 255] :=
  ⟨rfl, (C11_identity_rectify (fun _ => 255) 4 4
    [0, 17, 34, 51, 68, 85, 102, 119, 136, 153, 170, 187, 204, 221, 238, 255] rfl).1⟩

/-! ## The index of SetPoint -/

/-- On a table of shape `W×H` the position `SetPoint` computes is `nRow*W + nCol` whenever
that number is below `W*H`, whether or not the column is below `W`. -/
theorem index_of_lt {W H row col : Nat} {t : LookupTable}
    (hw : t.m_nWidth = (W : Int)) (hle : W * H ≤ 2 ^ 31 - 1)
    (hlt : row * W + col < W * H) :
    t.index row col = row * W + col := by
  have hH : 1 ≤ H := by
    rcases Nat.eq_zero_or_pos H with h0 | hpos
    · rw [h0, Nat.mul_zero] at hlt
      omega
    · exact hpos
  have hW : W ≤ 2 ^ 31 - 1 := by
    have : W * 1 ≤ W * H := Nat.mul_le_mul_left W hH
    omega
  unfold LookupTable.index UINT_MOD
  rw [hw, toUInt_nat hW]
  exact Nat.mod_eq_of_lt (by omega)

/-- C12: on a table built `W×H` with `W ≥ 1` (and possibly written to since), the position
`SetPoint` computes for a cell `row < H`, `col < W` is `row*W + col`, lies below `W*H` and
inside the descriptor vector; two cells of the grid with the same position are the same
cell; and every position `i < W*H` is the position of the cell `(i / W, i mod W)` of the
grid and of no other cell. -/
theorem C12_index_in_range_injective (W H : Nat) (t : LookupTable) (hW : 1 ≤ W)
    (h : Reachable (W : Int) (H : Int) t) :
    (∀ row col, row < H → col < W →
        t.index row col = row * W + col ∧ row * W + col < W * H
          ∧ t.index row col < t.m_vLutPixels.length)
      ∧ (∀ row col row' col', row < H → col < W → row' < H → col' < W →
          t.index row col = t.index row' col' → row = row' ∧ col = col')
      ∧ (∀ i, i < W * H →
          i / W < H ∧ i % W < W ∧ t.index (i / W) (i % W) = i
            ∧ ∀ row col, row < H → col < W → t.index row col = i →
                row = i / W ∧ col = i % W) := by
  obtain ⟨hw, hl, hle⟩ := reachable_shape h
  have hidx : ∀ row col, row < H → col < W → t.index row col = row * W + col :=
    fun row col hr hc => index_cell hw hle hr hc
  refine ⟨?_, ?_, ?_⟩
  · intro row col hr hc
    have hlt := cell_lt hr hc
    refine ⟨hidx row col hr hc, hlt, ?_⟩
    rw [hidx row col hr hc, hl]
    exact hlt
  · intro row col row' col' hr hc hr' hc' he
    rw [hidx row col hr hc, hidx row' col' hr' hc'] at he
    exact cell_injective hc hc' he
  · intro i hi
    have hdiv : i / W < H := (Nat.div_lt_iff_lt_mul (by omega)).mpr (by rw [Nat.mul_comm]; exact hi)
    have hmod : i % W < W := Nat.mod_lt i (by omega)
    have hrec : i / W * W + i % W = i := Nat.div_add_mod' i W
    refine ⟨hdiv, hmod, ?_, ?_⟩
    · rw [hidx _ _ hdiv hmod, hrec]
    · intro row col hr hc he
      rw [hidx row col hr hc, ← hrec] at he
      exact cell_injective hc hmod he

/-- Witness of C12 on the freshly built 3×2 table, cell `(1, 1)`. -/
theorem C12_index_in_range_injective_witness :
    LookupTable.index ⟨List.replicate (3 * 2) BilinearLutPoint.zeroed, 3⟩ 1 1 = 1 * 3 + 1
      ∧ 1 * 3 + 1 < 3 * 2
      ∧ LookupTable.index ⟨List.replicate (3 * 2) BilinearLutPoint.zeroed, 3⟩ 1 1
          < (LookupTable.mk (List.replicate (3 * 2) BilinearLutPoint.zeroed) 3).m_vLutPixels.length :=
  (C12_index_in_range_injective 3 2 ⟨List.replicate (3 * 2) BilinearLutPoint.zeroed, 3⟩
    (by decide) (Reachable.built (build_nat (by decide)))).1 1 1 (by decide) (by decide)

/-- C13: `SetPoint` does not check the column. On a table built `W×H` with `W ≥ 1` (and
possibly written to since), for `col ≥ W` and `row*W + col < W*H` the call
`SetPoint(row, col, p)` returns, and what it overwrites is the descriptor of the cell
`(row + col / W, col mod W)`, a cell of the grid different from `(row, col)`. -/
theorem C13_setPoint_column_overflow (W H : Nat) (t : LookupTable) (row col : Nat)
    (p : BilinearLutPoint) (hW : 1 ≤ W) (h : Reachable (W : Int) (H : Int) t)
    (hc : W ≤ col) (hlt : row * W + col < W * H) :
    ∃ t' : LookupTable, t.SetPoint row col p = .returned t'
      ∧ row + col / W < H ∧ col % W < W
      ∧ (row + col / W, col % W) ≠ (row, col)
      ∧ t.index row col = t.index (row + col / W) (col % W)
      ∧ t'.m_vLutPixels = t.m_vLutPixels.set ((row + col / W) * W + col % W) p
      ∧ t'.point? ((row + col / W) * W + col % W) = some p := by
  obtain ⟨hw, hl, hle⟩ := reachable_shape h
  have hWpos : 0 < W := by omega
  have hmod : col % W < W := Nat.mod_lt col hWpos
  have hrec : col / W * W + col % W = col := Nat.div_add_mod' col W
  have hpos : (row + col / W) * W + col % W = row * W + col := by
    rw [Nat.add_mul]
    omega
  have hrow : row + col / W < H := by
    by_contra hge
    have h1 : H * W ≤ (row + col / W) * W := Nat.mul_le_mul_right W (not_lt.mp hge)
    have h2 : H * W = W * H := Nat.mul_comm H W
    omega
  have hdiv : 1 ≤ col / W := (Nat.one_le_div_iff hWpos).mpr hc
  have hi := index_of_lt hw hle hlt
  have hi' := index_cell hw hle hrow hmod
  have hset : t.SetPoint row col p =
      .returned { t with m_vLutPixels := t.m_vLutPixels.set (row * W + col) p } := by
    unfold LookupTable.SetPoint
    dsimp only
    rw [hi, hl]
    have hsz : 0 < W * H := by omega
    simp only [hsz, not_true_eq_false, if_false, hlt, if_true]
  refine ⟨_, hset, hrow, hmod, ?_, ?_, ?_, ?_⟩
  · intro he
    have := (Prod.mk.inj he).1
    omega
  · rw [hi, hi', hpos]
  · rw [hpos]
  · rw [hpos]
    unfold LookupTable.point?
    simp [hl, hlt]

/-- Witness of C13 on the freshly built 2×3 table: `SetPoint(0, 3, p)` writes the cell
`(1, 1)`. -/
theorem C13_setPoint_column_overflow_witness :
    ∃ t' : LookupTable,
      LookupTable.SetPoint ⟨List.replicate (2 * 3) BilinearLutPoint.zeroed, 2⟩ 0 3
          ⟨5, 7, 1, 0, 0, 0⟩ = .returned t'
        ∧ t'.point? ((0 + 3 / 2) * 2 + 3 % 2) = some ⟨5, 7, 1, 0, 0, 0⟩ := by
  obtain ⟨t', h1, _, _, _, _, _, h7⟩ :=
    C13_setPoint_column_overflow 2 3 ⟨List.replicate (2 * 3) BilinearLutPoint.zeroed, 2⟩ 0 3
      ⟨5, 7, 1, 0, 0, 0⟩ (by decide) (Reachable.built (build_nat (by decide)))
      (by decide) (by decide)
  exact ⟨t', h1, h7⟩

/-! ## The divisor of Height -/

/-- The table a successful constructor call returned stores the width it was given. -/
theorem build_width {W H : Int} {t : LookupTable} (h : LookupTable.build W H = .ok t) :
    t.m_nWidth = W := by
  unfold LookupTable.build at h
  dsimp only at h
  split_ifs at h
  have ht := Except.ok.inj h
  rw [← ht]

/-- The constructor call `LookupTable(0, H)` returns the table without descriptors whose
stored width is zero. -/
theorem build_zero_width (H : Int) :
    LookupTable.build 0 H = .ok { m_vLutPixels := [], m_nWidth := 0 } := by
  have h := build_ok (W := 0) (H := H) (by rw [Int.zero_mul]) (by rw [Int.zero_mul]; decide)
  rw [h]
  simp

/-- C14: for every table built by `LookupTable(W, H)` with `W ≥ 1` (an `int`) the divisor
in `Height()` is non-zero and `Height()` returns a value; for `LookupTable(0, H)`, for any
`H`, the table holds zero descriptors, `Width()` returns 0, the divisor in `Height()` is
zero and `Height()` divides by zero, which is undefined. -/
theorem C14_height_division (W H : Int) (t : LookupTable) :
    (1 ≤ W → W ≤ INT_MAX → LookupTable.build W H = .ok t →
        toSizeT t.m_nWidth ≠ 0 ∧ ∃ n : Nat, t.Height = .ok n)
      ∧ ∃ t0 : LookupTable, LookupTable.build 0 H = .ok t0
          ∧ t0.m_vLutPixels.length = 0
          ∧ t0.Width = 0
          ∧ toSizeT t0.m_nWidth = 0
          ∧ t0.Height = .error .undefinedBehaviour := by
  constructor
  · intro hW hWi hb
    have hw := build_width hb
    have hs : (toSizeT W : Int) = W := toSizeT_of_int (by omega) hWi
    have hd : toSizeT t.m_nWidth ≠ 0 := by
      rw [hw]
      omega
    refine ⟨hd, ?_⟩
    unfold LookupTable.Height
    dsimp only
    rw [if_neg hd]
    exact ⟨_, rfl⟩
  · have hz : toSizeT (0 : Int) = 0 := by decide
    refine ⟨_, build_zero_width H, rfl, ?_, hz, ?_⟩
    · decide
    · unfold LookupTable.Height
      dsimp only
      rw [if_pos hz]

/-- Witness of C14: `LookupTable(2, 3)` has a defined height, `LookupTable(0, 3)` has not. -/
theorem C14_height_division_witness :
    (toSizeT (LookupTable.mk (List.replicate (2 * 3) BilinearLutPoint.zeroed) ((2 : Nat) : Int)).m_nWidth
        ≠ 0
      ∧ ∃ n : Nat,
          LookupTable.Height ⟨List.replicate (2 * 3) BilinearLutPoint.zeroed, ((2 : Nat) : Int)⟩
            = .ok n)
      ∧ ∃ t0 : LookupTable, LookupTable.build 0 3 = .ok t0
          ∧ t0.Height = .error .undefinedBehaviour := by
  have h := C14_height_division ((2 : Nat) : Int) ((3 : Nat) : Int)
    ⟨List.replicate (2 * 3) BilinearLutPoint.zeroed, ((2 : Nat) : Int)⟩
  obtain ⟨t0, hb, _, _, _, hh⟩ := h.2
  exact ⟨h.1 (by decide) (by decide) (build_nat (by decide)), t0, hb, hh⟩

/-! ## The bound finders on an empty scan -/

/-- The recording loop body of `MinMaxRotatedCol` changes the range as the loop body
does. -/
theorem minMaxRotatedCol_tracedBody_fst (wrap : ℚ) (cam : CameraInterface) (R : Matrix3d)
    (state : Range × List CameraCall) (row : Nat) :
    (MinMaxRotatedCol.tracedBody wrap cam R state row).1
      = MinMaxRotatedCol.body wrap cam R state.1 row := rfl

/-- The recording loop body of `MinMaxRotatedRow` changes the range as the loop body
does. -/
theorem minMaxRotatedRow_tracedBody_fst (wrap : ℚ) (cam : CameraInterface) (R : Matrix3d)
    (state : Range × List CameraCall) (col : Nat) :
    (MinMaxRotatedRow.tracedBody wrap cam R state col).1
      = MinMaxRotatedRow.body wrap cam R state.1 col := rfl

/-- A loop that carries a record besides its state computes the state of the loop
without the record. -/
theorem foldl_fst {σ τ : Type} (f : σ → Nat → σ) (g : σ × τ → Nat → σ × τ)
    (hfg : ∀ s i, (g s i).1 = f s.1 i) (l : List Nat) (s : σ × τ) :
    (l.foldl g s).1 = l.foldl f s.1 := by
  induction l generalizing s with
  | nil => rfl
  | cons a l ih => rw [List.foldl_cons, List.foldl_cons, ih, hfg]

/-- The range of the recording `MinMaxRotatedCol` is the range of `MinMaxRotatedCol`. -/
theorem minMaxRotatedCol_traced_fst (wrap : ℚ) (cam : CameraInterface) (R : Matrix3d) :
    (MinMaxRotatedCol.traced wrap cam R).1 = MinMaxRotatedCol wrap cam R :=
  foldl_fst _ _ (minMaxRotatedCol_tracedBody_fst wrap cam R) _ _

/-- The range of the recording `MinMaxRotatedRow` is the range of `MinMaxRotatedRow`. -/
theorem minMaxRotatedRow_traced_fst (wrap : ℚ) (cam : CameraInterface) (R : Matrix3d) :
    (MinMaxRotatedRow.traced wrap cam R).1 = MinMaxRotatedRow wrap cam R :=
  foldl_fst _ _ (minMaxRotatedRow_tracedBody_fst wrap cam R) _ _

/-- C15: for every camera whose `Height()` is 0 and every matrix `R`,
`MinMaxRotatedCol(cam, R)` returns the fully open interval `Range::Open()`
(`lo = -inf`, `hi = +inf`) and makes no call of `Project` or `Unproject`; likewise
`MinMaxRotatedRow(cam, R)` for every camera whose `Width()` is 0. -/
theorem C15_empty_scan_is_open (wrap : ℚ) (cam : CameraInterface) (R : Matrix3d) :
    (cam.Height = 0 →
        MinMaxRotatedCol wrap cam R = Range.Open
          ∧ (MinMaxRotatedCol wrap cam R).lo = ⊥ ∧ (MinMaxRotatedCol wrap cam R).hi = ⊤
          ∧ MinMaxRotatedCol.traced wrap cam R = (Range.Open, []))
      ∧ (cam.Width = 0 →
        MinMaxRotatedRow wrap cam R = Range.Open
          ∧ (MinMaxRotatedRow wrap cam R).lo = ⊥ ∧ (MinMaxRotatedRow wrap cam R).hi = ⊤
          ∧ MinMaxRotatedRow.traced wrap cam R = (Range.Open, [])) := by
  constructor
  · intro h0
    have hcol : MinMaxRotatedCol wrap cam R = Range.Open := by
      unfold MinMaxRotatedCol
      rw [h0]
      rfl
    refine ⟨hcol, ?_, ?_, ?_⟩
    · rw [hcol]; rfl
    · rw [hcol]; rfl
    · unfold MinMaxRotatedCol.traced
      rw [h0]
      rfl
  · intro h0
    have hrow : MinMaxRotatedRow wrap cam R = Range.Open := by
      unfold MinMaxRotatedRow
      rw [h0]
      rfl
    refine ⟨hrow, ?_, ?_, ?_⟩
    · rw [hrow]; rfl
    · rw [hrow]; rfl
    · unfold MinMaxRotatedRow.traced
      rw [h0]
      rfl

/-- Witness of C15 on the pinhole cameras of resolution 4×0 and 0×3. -/
theorem C15_empty_scan_is_open_witness :
    (MinMaxRotatedCol (-1) (pinholeCamera 4 0) ⟨1, 1, 0, 0, 1, 0, 0, 0, 1⟩ = Range.Open
        ∧ MinMaxRotatedCol.traced (-1) (pinholeCamera 4 0) ⟨1, 1, 0, 0, 1, 0, 0, 0, 1⟩
            = (Range.Open, []))
      ∧ (MinMaxRotatedRow (-1) (pinholeCamera 0 3) ⟨1, 1, 0, 0, 1, 0, 0, 0, 1⟩ = Range.Open
        ∧ MinMaxRotatedRow.traced (-1) (pinholeCamera 0 3) ⟨1, 1, 0, 0, 1, 0, 0, 0, 1⟩
            = (Range.Open, [])) :=
  have hc := (C15_empty_scan_is_open (-1) (pinholeCamera 4 0) ⟨1, 1, 0, 0, 1, 0, 0, 0, 1⟩).1 rfl
  have hr := (C15_empty_scan_is_open (-1) (pinholeCamera 0 3) ⟨1, 1, 0, 0, 1, 0, 0, 0, 1⟩).2 rfl
  ⟨⟨hc.1, hc.2.2.2⟩, ⟨hr.1, hr.2.2.2⟩⟩

end calibu
